import Mathlib

/-!
Verification development for the calculator engine in
`src/components/Calculator.tsx`.

The engine stores its state in a `CalculatorState` record (display string,
optional previous value, optional pending operation, waiting flag) and is
driven by four handlers: `inputNumber`, `inputDecimal`, `clear` and
`performOperation`.  The numeric side of the code runs on JavaScript
numbers (IEEE-754 binary64).  We model every double by its
exact rational value, and re-implement the binary64 rounding step
(round-to-nearest, ties-to-even, 53-bit significand, overflow to infinity at
2^1024) exactly, so that `parseFloat`, the arithmetic operators,
`Number.prototype.toPrecision(12)` and `String(number)` (shortest round-trip
representation, ECMA-262 Number::toString) are all faithfully reproduced.

Rationals are represented by an unnormalised pair (integer numerator,
positive natural denominator) so that every definition reduces inside the
kernel; `toQ` maps the representation to Mathlib's `ℚ` for the proofs.
-/

set_option maxRecDepth 100000

/-- Unnormalised rational number: numerator over positive denominator. -/
structure Q where
  n : ℤ
  d : ℕ+
  deriving DecidableEq

namespace Q

def ofInt (z : ℤ) : Q := ⟨z, 1⟩

def ofNat (m : ℕ) : Q := ⟨(m : ℤ), 1⟩

def zero : Q := ⟨0, 1⟩

def one : Q := ⟨1, 1⟩

def half : Q := ⟨1, 2⟩

def mul (x y : Q) : Q := ⟨x.n * y.n, x.d * y.d⟩

def add (x y : Q) : Q := ⟨x.n * (y.d : ℕ) + y.n * (x.d : ℕ), x.d * y.d⟩

def neg (x : Q) : Q := ⟨-x.n, x.d⟩

def sub (x y : Q) : Q := add x (neg y)

def abs (x : Q) : Q := ⟨|x.n|, x.d⟩

def inv (x : Q) : Q :=
  if h : 0 < x.n then ⟨(x.d : ℕ), ⟨x.n.toNat, by omega⟩⟩
  else if h2 : x.n < 0 then ⟨-(x.d : ℕ), ⟨(-x.n).toNat, by omega⟩⟩
  else ⟨0, 1⟩

def div (x y : Q) : Q := mul x (inv y)

/-- Boolean comparison `x ≤ y` by cross multiplication. -/
def leb (x y : Q) : Bool := decide (x.n * (y.d : ℕ) ≤ y.n * (x.d : ℕ))

/-- Boolean comparison `x < y` by cross multiplication. -/
def ltb (x y : Q) : Bool := decide (x.n * (y.d : ℕ) < y.n * (x.d : ℕ))

/-- Value equality (the representation is not unique). -/
def eqb (x y : Q) : Bool := decide (x.n * (y.d : ℕ) = y.n * (x.d : ℕ))

def floor (x : Q) : ℤ := x.n.ediv (x.d : ℕ)

/-- `2^e` as a `Q`, for `e : ℤ`. -/
def pow2 (e : ℤ) : Q :=
  if 0 ≤ e then ⟨((2 ^ e.toNat : ℕ) : ℤ), 1⟩
  else ⟨1, ⟨2 ^ (-e).toNat, Nat.pos_pow_of_pos _ (by decide)⟩⟩

/-- `10^e` as a `Q`, for `e : ℤ`. -/
def pow10 (e : ℤ) : Q :=
  if 0 ≤ e then ⟨((10 ^ e.toNat : ℕ) : ℤ), 1⟩
  else ⟨1, ⟨10 ^ (-e).toNat, Nat.pos_pow_of_pos _ (by decide)⟩⟩

/-- Interpretation into Mathlib's rationals. -/
def toQ (x : Q) : ℚ := (x.n : ℚ) / ((x.d : ℕ) : ℚ)

end Q

/-- Fuel-bounded base-2 logarithm (floor) on naturals, tail-recursive;
correct whenever the input is at most `2^fuel`. -/
def log2fuel : ℕ → ℕ → ℕ → ℕ
  | 0, _, acc => acc
  | f + 1, m, acc => if m < 2 then acc else log2fuel f (m / 2) (acc + 1)

/-- Fuel-bounded base-10 logarithm (floor) on naturals, tail-recursive;
correct whenever the input is at most `10^fuel`. -/
def log10fuel : ℕ → ℕ → ℕ → ℕ
  | 0, _, acc => acc
  | f + 1, m, acc => if m < 10 then acc else log10fuel f (m / 10) (acc + 1)

/-- Fuel for the logarithm computations.  Every number reaching a logarithm
in the engine model is far below `2^4200`. -/
def logFuel : ℕ := 4200

def nlog2 (m : ℕ) : ℕ := log2fuel logFuel m 0

def nlog10 (m : ℕ) : ℕ := log10fuel logFuel m 0

/-- `⌊log₂ x⌋` of a positive rational (junk on non-positive input). -/
def qlog2floor (x : Q) : ℤ :=
  let c : ℤ := (nlog2 x.n.natAbs : ℤ) - (nlog2 (x.d : ℕ) : ℤ)
  if Q.ltb x (Q.pow2 c) then c - 1 else c

/-- `⌊log₁₀ x⌋` of a positive rational (junk on non-positive input). -/
def qlog10floor (x : Q) : ℤ :=
  let c : ℤ := (nlog10 x.n.natAbs : ℤ) - (nlog10 (x.d : ℕ) : ℤ)
  if Q.ltb x (Q.pow10 c) then c - 1 else c

/-- Round a rational to the nearest integer, ties to even. -/
def rne (t : Q) : ℤ :=
  if Q.ltb (Q.sub t (Q.ofInt (Q.floor t))) Q.half then Q.floor t
  else if Q.ltb Q.half (Q.sub t (Q.ofInt (Q.floor t))) then Q.floor t + 1
  else if Q.floor t % 2 = 0 then Q.floor t else Q.floor t + 1

/-- A JavaScript number: NaN, a signed infinity (`true` = negative), or a
finite binary64 value given by its exact rational value. -/
inductive JsNum where
  | nan : JsNum
  | inf : Bool → JsNum
  | finite : Q → JsNum
  deriving DecidableEq

/-- Largest finite binary64 value, `(2^53 - 1) * 2^971`. -/
def maxFinite : Q := ⟨(((2 ^ 53 - 1) * 2 ^ 971 : ℕ) : ℤ), 1⟩

/-- Scaling exponent for binary64 rounding: `52 - ⌊log₂ |x|⌋` for normal
numbers, clamped at `1074` in the subnormal range. -/
def rqK (x : Q) : ℤ :=
  if -1022 ≤ qlog2floor (Q.abs x) then 52 - qlog2floor (Q.abs x) else 1074

/-- Rounded significand of `|x|` at scale `rqK x`. -/
def rqM (x : Q) : ℤ := rne (Q.mul (Q.abs x) (Q.pow2 (rqK x)))

/-- `|x|` rounded onto the binary64 grid (still unbounded above). -/
def rqV (x : Q) : Q := Q.mul (Q.ofInt (rqM x)) (Q.pow2 (-(rqK x)))

/-- Round an exact rational to binary64 (round to nearest, ties to even;
overflow to a signed infinity; gradual underflow to subnormals and zero).
This is the rounding JavaScript applies after every arithmetic operation
and inside `parseFloat`. -/
def roundQ (x : Q) : JsNum :=
  if x.n = 0 then JsNum.finite Q.zero
  else if Q.ltb maxFinite (rqV x) then JsNum.inf (decide (x.n < 0))
  else JsNum.finite (if x.n < 0 then Q.neg (rqV x) else rqV x)

namespace JsNum

def isFinite : JsNum → Bool
  | finite _ => true
  | _ => false

/-- The `=== 0` test of JavaScript (NaN and infinities compare false). -/
def isZero : JsNum → Bool
  | finite q => decide (q.n = 0)
  | _ => false

def isNeg : Q → Bool := fun q => decide (q.n < 0)

/-- IEEE-754 addition on JavaScript numbers. -/
def add : JsNum → JsNum → JsNum
  | nan, _ => nan
  | _, nan => nan
  | inf a, inf b => if a = b then inf a else nan
  | inf a, finite _ => inf a
  | finite _, inf b => inf b
  | finite a, finite b => roundQ (Q.add a b)

/-- IEEE-754 subtraction on JavaScript numbers. -/
def sub : JsNum → JsNum → JsNum
  | nan, _ => nan
  | _, nan => nan
  | inf a, inf b => if a = b then nan else inf a
  | inf a, finite _ => inf a
  | finite _, inf b => inf (!b)
  | finite a, finite b => roundQ (Q.sub a b)

/-- IEEE-754 multiplication on JavaScript numbers. -/
def mul : JsNum → JsNum → JsNum
  | nan, _ => nan
  | _, nan => nan
  | inf a, inf b => inf (xor a b)
  | inf a, finite q => if q.n = 0 then nan else inf (xor a (isNeg q))
  | finite q, inf b => if q.n = 0 then nan else inf (xor b (isNeg q))
  | finite a, finite b => roundQ (Q.mul a b)

/-- IEEE-754 division on JavaScript numbers. -/
def div : JsNum → JsNum → JsNum
  | nan, _ => nan
  | _, nan => nan
  | inf _, inf _ => nan
  | inf a, finite q => inf (xor a (isNeg q))
  | finite _, inf _ => finite Q.zero
  | finite a, finite b =>
    if b.n = 0 then (if a.n = 0 then nan else inf (isNeg a))
    else roundQ (Q.div a b)

end JsNum

/-- One digit character. -/
def digCh (m : ℕ) : Char :=
  if m % 10 = 0 then '0'
  else if m % 10 = 1 then '1'
  else if m % 10 = 2 then '2'
  else if m % 10 = 3 then '3'
  else if m % 10 = 4 then '4'
  else if m % 10 = 5 then '5'
  else if m % 10 = 6 then '6'
  else if m % 10 = 7 then '7'
  else if m % 10 = 8 then '8'
  else '9'

/-- Fuel-bounded decimal digit list of a natural number. -/
def natDigitsF : ℕ → ℕ → List Char
  | 0, _ => []
  | f + 1, m => if m < 10 then [digCh m] else natDigitsF f (m / 10) ++ [digCh (m % 10)]

def natDigits (m : ℕ) : List Char := natDigitsF logFuel m

/-- Greedily read decimal digits from the front of a character list,
returning the accumulated value, the number of digits read and the rest. -/
def readDigits : ℕ → ℕ → List Char → ℕ × ℕ × List Char
  | acc, cnt, [] => (acc, cnt, [])
  | acc, cnt, c :: cs =>
    if c.isDigit then readDigits (10 * acc + (c.toNat - 48)) (cnt + 1) cs
    else (acc, cnt, c :: cs)

/-- Exact rational value of the longest decimal literal at the front of a
string — the grammar accepted by JavaScript's `parseFloat` (optional sign,
digits, one optional decimal point, optional exponent part; at least one
digit required; trailing characters ignored).  `none` corresponds to
`parseFloat` returning NaN. -/
def headIs (l : List Char) (a : Char) : Bool :=
  match l with
  | c :: _ => c == a
  | [] => false

/-- Part of the literal after the optional leading sign. -/
def afterSign (cs : List Char) : List Char :=
  if headIs cs '-' || headIs cs '+' then cs.tail else cs

/-- Integer-digit part: value, digit count, rest. -/
def ipartOf (cs : List Char) : ℕ × ℕ × List Char := readDigits 0 0 (afterSign cs)

/-- Fraction-digit part: value, digit count, rest. -/
def fpartOf (cs : List Char) : ℕ × ℕ × List Char :=
  if headIs (ipartOf cs).2.2 '.' then readDigits 0 0 (ipartOf cs).2.2.tail
  else (0, 0, (ipartOf cs).2.2)

/-- Value of the optional exponent part (`e`/`E`, optional sign, digits);
an exponent with no digits is ignored, as `parseFloat` does. -/
def expOf (cs3 : List Char) : ℤ :=
  if headIs cs3 'e' || headIs cs3 'E' then
    let r := cs3.tail
    let r2 := if headIs r '-' || headIs r '+' then r.tail else r
    if (readDigits 0 0 r2).2.1 = 0 then 0
    else if headIs r '-' then -((readDigits 0 0 r2).1 : ℤ) else ((readDigits 0 0 r2).1 : ℤ)
  else 0

def decValue? (s : String) : Option Q :=
  let cs := s.data
  if (ipartOf cs).2.1 + (fpartOf cs).2.1 = 0 then none
  else
    let mant := Q.add (Q.ofNat (ipartOf cs).1)
      (Q.mul (Q.ofNat (fpartOf cs).1) (Q.pow10 (-((fpartOf cs).2.1 : ℤ))))
    some (Q.mul (if headIs cs '-' then Q.neg mant else mant) (Q.pow10 (expOf (fpartOf cs).2.2)))

/-- JavaScript's `parseFloat` on our displays: parse the decimal literal and
round its exact value to binary64 (`NaN` when nothing parses). -/
def parseFloat (s : String) : JsNum :=
  match decValue? s with
  | none => JsNum.nan
  | some q => roundQ q

/-- Rounding of `Number.prototype.toPrecision(12)` composed with the
`parseFloat` re-reading done by the engine: round to 12 significant decimal
digits, ties away from zero (ECMA-262 picks the larger candidate on ties).
The intermediate decimal string produced by `toPrecision` represents this
value exactly, so the composition acts on values. -/
def r12E (x : Q) : ℤ := qlog10floor (Q.abs x)

def r12S (x : Q) : ℤ :=
  Q.floor (Q.add (Q.mul (Q.abs x) (Q.pow10 (11 - r12E x))) Q.half)

def r12Y (x : Q) : Q := Q.mul (Q.ofInt (r12S x)) (Q.pow10 (r12E x - 11))

def round12 (x : Q) : Q :=
  if x.n = 0 then Q.zero
  else if x.n < 0 then Q.neg (r12Y x) else r12Y x

/-- The engine's `parseFloat(result.toPrecision(12))` on a JavaScript
number: 12-significant-digit decimal rounding followed by binary64
rounding.  NaN and infinities round-trip unchanged through the
`toPrecision`/`parseFloat` pair. -/
def fmt12 : JsNum → JsNum
  | JsNum.finite q => roundQ (round12 q)
  | x => x

/-- Does the double `x` re-read as exactly the finite value `v`?
(Round-trip test used by the shortest-representation search.) -/
def rtEq (x : JsNum) (v : Q) : Bool :=
  match x with
  | JsNum.finite w => Q.eqb w v
  | _ => false

/-- Among the candidate representations `(n, s)` pick the one whose value
`s·10^(n-k)` is closest to `v`, ties to even `s` (ECMA-262 Number::toString
step 5). -/
def pickBest (v : Q) (k : ℕ) : List (ℤ × ℕ) → Option (ℤ × ℕ)
  | [] => none
  | p :: ps =>
    match pickBest v k ps with
    | none => some p
    | some q =>
      let dp := Q.abs (Q.sub (Q.mul (Q.ofNat p.2) (Q.pow10 (p.1 - k))) v)
      let dq := Q.abs (Q.sub (Q.mul (Q.ofNat q.2) (Q.pow10 (q.1 - k))) v)
      if Q.ltb dp dq then some p
      else if Q.ltb dq dp then some q
      else if p.2 % 2 = 0 then some p else some q

/-- Try to represent the double `v` with `k` significant decimal digits:
find `n` and a `k`-digit `s` with `s·10^(n-k)` re-reading as `v`. -/
def tryK (v : Q) (n : ℤ) (k : ℕ) : Option (ℤ × ℕ) :=
  let t := Q.mul v (Q.pow10 ((k : ℤ) - n))
  let s0 := (Q.floor t).toNat
  let base := [(n, s0), (n, s0 + 1)]
  let cands := if s0 + 1 = 10 ^ k then base ++ [(n + 1, 10 ^ (k - 1))] else base
  let good := cands.filter fun p =>
    decide (10 ^ (k - 1) ≤ p.2) && decide (p.2 < 10 ^ k)
      && rtEq (roundQ (Q.mul (Q.ofNat p.2) (Q.pow10 (p.1 - (k : ℤ))))) v
  pickBest v k good

/-- Search for the least digit count `k` (at most 17 for a real double). -/
def tsLoop (v : Q) (n : ℤ) : ℕ → ℕ → Option (ℤ × ℕ × ℕ)
  | 0, _ => none
  | fuel + 1, k =>
    match tryK v n k with
    | some (n1, s) => some (n1, s, k)
    | none => tsLoop v n fuel (k + 1)

/-- Lay out digits `s` (of count `k`) with decimal-point position `n`
following ECMA-262 Number::toString (fixed notation for `-6 < n ≤ 21`,
exponential notation otherwise). -/
def fmtDigits (n : ℤ) (s : ℕ) (k : ℕ) : String :=
  let ds := natDigits s
  if (k : ℤ) ≤ n ∧ n ≤ 21 then ⟨ds ++ List.replicate (n - k).toNat '0'⟩
  else if 0 < n ∧ n ≤ 21 then ⟨ds.take n.toNat ++ '.' :: ds.drop n.toNat⟩
  else if -6 < n ∧ n ≤ 0 then ⟨'0' :: '.' :: (List.replicate (-n).toNat '0' ++ ds)⟩
  else
    let ex := n - 1
    let suffix := 'e' :: (if ex < 0 then '-' else '+') :: natDigits ex.natAbs
    match ds with
    | [] => ⟨'0' :: suffix⟩
    | [c] => ⟨c :: suffix⟩
    | c :: rest => ⟨c :: '.' :: (rest ++ suffix)⟩

/-- Shortest-round-trip decimal representation of a positive double. -/
def jsPosString (v : Q) : String :=
  let n := qlog10floor v + 1
  match tsLoop v n 17 1 with
  | some (n1, s, k) => fmtDigits n1 s k
  | none => fmtDigits n ((Q.floor (Q.add (Q.mul v (Q.pow10 ((17 : ℤ) - n))) Q.half)).toNat) 17

/-- JavaScript's `String(number)` (ECMA-262 Number::toString, radix 10). -/
def jsToString : JsNum → String
  | JsNum.nan => "NaN"
  | JsNum.inf neg => if neg then "-Infinity" else "Infinity"
  | JsNum.finite q =>
    if q.n = 0 then "0"
    else if q.n < 0 then "-" ++ jsPosString (Q.abs q)
    else jsPosString q

/-! ## The calculator engine (`src/components/Calculator.tsx`) -/

/-- One call to the `toast` notification sink. -/
structure Toast where
  title : String
  description : String
  variant : String
  deriving DecidableEq

def divideByZeroToast : Toast := ⟨"Error", "Cannot divide by zero", "destructive"⟩

def invalidCalculationToast : Toast := ⟨"Error", "Invalid calculation", "destructive"⟩

/-- The state record of the component. -/
structure CalculatorState where
  display : String
  previousValue : Option JsNum
  operation : Option String
  waitingForOperand : Bool
  deriving DecidableEq

/-- The `useState` initialiser. -/
def initialState : CalculatorState :=
  { display := "0", previousValue := none, operation := none, waitingForOperand := false }

/-- `inputNumber`: append or start a digit (`num` is a single digit). -/
def inputNumber (num : String) (s : CalculatorState) : CalculatorState :=
  if s.waitingForOperand then
    { s with display := num, waitingForOperand := false }
  else
    { s with display := if s.display = "0" then num else s.display ++ num }

/-- `inputDecimal`: start `"0."` or append a first decimal point. -/
def inputDecimal (s : CalculatorState) : CalculatorState :=
  if s.waitingForOperand then
    { s with display := "0.", waitingForOperand := false }
  else if s.display.data.contains '.' = false then
    { s with display := s.display ++ "." }
  else s

/-- `clear`: reset to the initial state. -/
def clear (_ : CalculatorState) : CalculatorState := initialState

/-- JavaScript's `previousValue || 0` (falsy numbers 0 and NaN become 0). -/
def jsOr0 (x : JsNum) : JsNum :=
  match x with
  | JsNum.nan => JsNum.finite Q.zero
  | JsNum.finite q => if q.n = 0 then JsNum.finite Q.zero else JsNum.finite q
  | y => y

/-- Shared tail of `performOperation` after the `switch` has produced
`result`: the `isFinite` guard, the 12-digit formatting, and the final
`setState`. -/
def commitResult (nextOperation : String) (result : JsNum) : CalculatorState × Option Toast :=
  if !result.isFinite then (initialState, some invalidCalculationToast)
  else
    let formattedResult := fmt12 result
    ({ display := jsToString formattedResult,
       previousValue := if nextOperation = "=" then none else some formattedResult,
       operation := if nextOperation = "=" then none else some nextOperation,
       waitingForOperand := true }, none)

/-- `performOperation`: the core transition.  Returns the next state along
with the toast emitted, if any. -/
def performOperation (nextOperation : String) (s : CalculatorState) : CalculatorState × Option Toast :=
  let inputValue := parseFloat s.display
  match s.previousValue with
  | none =>
    ({ s with previousValue := some inputValue,
              operation := some nextOperation,
              waitingForOperand := true }, none)
  | some pv =>
    match s.operation with
    | none => (s, none)
    | some op =>
      let currentValue := jsOr0 pv
      if op = "+" then commitResult nextOperation (JsNum.add currentValue inputValue)
      else if op = "-" then commitResult nextOperation (JsNum.sub currentValue inputValue)
      else if op = "×" then commitResult nextOperation (JsNum.mul currentValue inputValue)
      else if op = "÷" then
        if inputValue.isZero then (s, some divideByZeroToast)
        else commitResult nextOperation (JsNum.div currentValue inputValue)
      else (s, none)

/-- The `switch` of `performOperation` in isolation: the value it computes
from the stored operation, or `none` on the two early-return paths
(divide-by-zero guard, unknown operator). -/
def applyOp (op : String) (a b : JsNum) : Option JsNum :=
  if op = "+" then some (JsNum.add a b)
  else if op = "-" then some (JsNum.sub a b)
  else if op = "×" then some (JsNum.mul a b)
  else if op = "÷" then (if b.isZero then none else some (JsNum.div a b))
  else none

/-- The input events the dispatch layer can deliver to the engine. -/
inductive CalcEvent where
  | digit : Fin 10 → CalcEvent
  | decimalPoint : CalcEvent
  | clearKey : CalcEvent
  | operationKey : String → CalcEvent

/-- The single-digit string handed to `inputNumber` by the keypad. -/
def digitString (d : Fin 10) : String := ⟨[digCh d.val]⟩

/-- Dispatch one event to the engine. -/
def step (e : CalcEvent) (s : CalculatorState) : CalculatorState × Option Toast :=
  match e with
  | CalcEvent.digit d => (inputNumber (digitString d) s, none)
  | CalcEvent.decimalPoint => (inputDecimal s, none)
  | CalcEvent.clearKey => (clear s, none)
  | CalcEvent.operationKey op => performOperation op s

/-- State reached from the initial state by a sequence of events. -/
def run (evs : List CalcEvent) : CalculatorState :=
  evs.foldl (fun s e => (step e s).1) initialState

/-- State and list of emitted toasts after a sequence of events. -/
def runWithToasts (evs : List CalcEvent) : CalculatorState × List Toast :=
  evs.foldl (fun p e => ((step e p.1).1, p.2 ++ (step e p.1).2.toList)) (initialState, [])

/-! ## Predicates used in the specification statements -/

/-- Number of decimal points in a display string. -/
def dotCount (s : String) : ℕ := s.data.count '.'

def headDigit (l : List Char) : Bool :=
  match l with
  | c :: _ => c.isDigit
  | [] => false

/-- The string begins like a decimal numeral: with a digit, or with a minus
sign followed by a digit.  Every such string is accepted by `decValue?`. -/
def startsNumeric (s : String) : Bool :=
  match s.data with
  | [] => false
  | [c] => c.isDigit
  | c :: c2 :: _ => c.isDigit || (c == '-' && c2.isDigit)

/-- Tail of a typed display after its leading digit: digits with at most one
decimal point (`seenDot` records whether one was already passed). -/
def typedTail : Bool → List Char → Bool
  | _, [] => true
  | seen, c :: cs =>
    if c.isDigit then typedTail seen cs
    else if (c == '.') && !seen then typedTail true cs
    else false

/-- Display shapes producible by digit and decimal-point keys alone:
a digit, then digits with at most one decimal point. -/
def TypedDisplay (s : String) : Bool :=
  match s.data with
  | [] => false
  | c :: cs => c.isDigit && typedTail false cs

/-- Upper bound for values rounded to 12 significant digits from the finite
binary64 range: `1.79769313486e308`. -/
def hi12 : ℚ := 179769313486 * (10 : ℚ) ^ (297 : ℕ)

/-- Bounds satisfied by every finite value produced by `roundQ`: within the
binary64 range, on the `2^-1074` grid with bounded numerator and
denominator, and (when nonzero) at least the smallest subnormal. -/
def GoodVal (v : Q) : Prop :=
  |v.toQ| ≤ maxFinite.toQ ∧ (v.d : ℕ) ≤ 2 ^ 1074 ∧ v.n.natAbs ≤ 2 ^ 2098 ∧
    (v.n ≠ 0 → (2 : ℚ) ^ (-1074 : ℤ) ≤ |v.toQ|)

/-- A JavaScript number whose finite payload (if any) satisfies `GoodVal`. -/
def GoodFinite (z : JsNum) : Prop := ∀ v, z = JsNum.finite v → GoodVal v

/-- Data-model invariant of reachable calculator states: operation and
previous value are present together; the display has at most one decimal
point, parses as a decimal numeral, and is still a plain typed numeral
whenever the engine is not waiting for a fresh operand; a stored previous
value is never NaN. -/
def StateInv (st : CalculatorState) : Prop :=
  (st.operation.isSome = st.previousValue.isSome)
  ∧ dotCount st.display ≤ 1
  ∧ startsNumeric st.display = true
  ∧ (st.waitingForOperand = false → TypedDisplay st.display = true)
  ∧ (∀ pv, st.previousValue = some pv → pv ≠ JsNum.nan)

/-! ## Interpretation lemmas: `Q` versus `ℚ` -/

namespace Q

theorem dpos (x : Q) : (0 : ℚ) < ((x.d : ℕ) : ℚ) := by
  exact_mod_cast x.d.pos

theorem dne (x : Q) : (((x.d : ℕ) : ℚ)) ≠ 0 := ne_of_gt (dpos x)

theorem toQ_mul (x y : Q) : (x.mul y).toQ = x.toQ * y.toQ := by
  unfold toQ mul
  push_cast [PNat.mul_coe]
  rw [div_mul_div_comm]

theorem toQ_add (x y : Q) : (x.add y).toQ = x.toQ + y.toQ := by
  unfold toQ add
  push_cast [PNat.mul_coe]
  rw [div_add_div _ _ (dne x) (dne y)]
  ring_nf

theorem toQ_neg (x : Q) : (x.neg).toQ = -x.toQ := by
  unfold toQ neg
  push_cast
  rw [neg_div]

theorem toQ_sub (x y : Q) : (x.sub y).toQ = x.toQ - y.toQ := by
  unfold sub
  rw [toQ_add, toQ_neg, sub_eq_add_neg]

theorem toQ_abs (x : Q) : (x.abs).toQ = |x.toQ| := by
  unfold toQ abs
  rw [abs_div]
  simp [abs_of_pos (dpos x)]

theorem toQ_ofInt (z : ℤ) : (ofInt z).toQ = (z : ℚ) := by
  unfold toQ ofInt
  simp

theorem toQ_ofNat (m : ℕ) : (ofNat m).toQ = (m : ℚ) := by
  unfold toQ ofNat
  simp

theorem toQ_zero : (zero).toQ = 0 := by unfold toQ zero; simp

theorem toQ_half : (half).toQ = 1 / 2 := by
  unfold toQ half
  norm_num

theorem toQ_pow2 (e : ℤ) : (pow2 e).toQ = (2 : ℚ) ^ e := by
  rcases le_or_lt 0 e with h | h
  · rw [pow2, if_pos h]
    show ((((2 ^ e.toNat : ℕ) : ℤ) : ℚ)) / (((1 : ℕ+) : ℕ) : ℚ) = _
    push_cast
    rw [div_one, ← zpow_natCast, Int.toNat_of_nonneg h]
  · rw [pow2, if_neg (not_le.mpr h)]
    show (((1 : ℤ) : ℚ)) / (((2 ^ (-e).toNat : ℕ) : ℕ) : ℚ) = _
    push_cast
    rw [one_div, ← zpow_natCast, ← zpow_neg, Int.toNat_of_nonneg (by omega), neg_neg]

theorem toQ_pow10 (e : ℤ) : (pow10 e).toQ = (10 : ℚ) ^ e := by
  rcases le_or_lt 0 e with h | h
  · rw [pow10, if_pos h]
    show ((((10 ^ e.toNat : ℕ) : ℤ) : ℚ)) / (((1 : ℕ+) : ℕ) : ℚ) = _
    push_cast
    rw [div_one, ← zpow_natCast, Int.toNat_of_nonneg h]
  · rw [pow10, if_neg (not_le.mpr h)]
    show (((1 : ℤ) : ℚ)) / (((10 ^ (-e).toNat : ℕ) : ℕ) : ℚ) = _
    push_cast
    rw [one_div, ← zpow_natCast, ← zpow_neg, Int.toNat_of_nonneg (by omega), neg_neg]

theorem leb_iff (x y : Q) : x.leb y = true ↔ x.toQ ≤ y.toQ := by
  unfold leb toQ
  rw [decide_eq_true_eq, div_le_div_iff (dpos x) (dpos y)]
  exact_mod_cast Iff.rfl

theorem ltb_iff (x y : Q) : x.ltb y = true ↔ x.toQ < y.toQ := by
  unfold ltb toQ
  rw [decide_eq_true_eq, div_lt_div_iff (dpos x) (dpos y)]
  exact_mod_cast Iff.rfl

theorem eqb_iff (x y : Q) : x.eqb y = true ↔ x.toQ = y.toQ := by
  unfold eqb toQ
  rw [decide_eq_true_eq, div_eq_div_iff (dne x) (dne y)]
  exact_mod_cast Iff.rfl

theorem nzero_iff (x : Q) : x.n = 0 ↔ x.toQ = 0 := by
  unfold toQ
  rw [div_eq_zero_iff]
  constructor
  · intro h; left; exact_mod_cast h
  · rintro (h | h)
    · exact_mod_cast h
    · exact absurd h (dne x)

theorem toQ_pos_iff (x : Q) : 0 < x.toQ ↔ 0 < x.n := by
  unfold toQ
  rw [div_pos_iff]
  constructor
  · rintro (⟨h, _⟩ | ⟨_, h⟩)
    · exact_mod_cast h
    · exact absurd h (not_lt_of_gt (dpos x))
  · intro h
    exact Or.inl ⟨by exact_mod_cast h, dpos x⟩

theorem floor_spec (x : Q) : ((x.floor : ℚ) ≤ x.toQ ∧ x.toQ < x.floor + 1) := by
  unfold floor toQ
  have hb : (0 : ℤ) < ((x.d : ℕ) : ℤ) := by exact_mod_cast x.d.pos
  have h1 : ((x.d : ℕ) : ℤ) * (x.n.ediv ((x.d : ℕ) : ℤ)) + x.n.emod ((x.d : ℕ) : ℤ) = x.n :=
    Int.ediv_add_emod _ _
  have h2 : 0 ≤ x.n.emod ((x.d : ℕ) : ℤ) := Int.emod_nonneg _ (by omega)
  have h3 : x.n.emod ((x.d : ℕ) : ℤ) < ((x.d : ℕ) : ℤ) := Int.emod_lt_of_pos _ hb
  constructor
  · rw [le_div_iff (dpos x)]
    have h4 : x.n.ediv ((x.d : ℕ) : ℤ) * ((x.d : ℕ) : ℤ)
        = ((x.d : ℕ) : ℤ) * x.n.ediv ((x.d : ℕ) : ℤ) := mul_comm _ _
    have : (x.n.ediv ((x.d : ℕ) : ℤ)) * ((x.d : ℕ) : ℤ) ≤ x.n := by omega
    exact_mod_cast this
  · rw [div_lt_iff (dpos x)]
    have : x.n < (x.n.ediv ((x.d : ℕ) : ℤ) + 1) * ((x.d : ℕ) : ℤ) := by
      have := h3
      nlinarith [h1, h2]
    calc ((x.n : ℚ)) < ((((x.n.ediv ((x.d : ℕ) : ℤ) + 1) * ((x.d : ℕ) : ℤ)) : ℤ) : ℚ) := by
          exact_mod_cast this
      _ = ((x.n.ediv ((x.d : ℕ) : ℤ) : ℚ) + 1) * ((x.d : ℕ) : ℚ) := by push_cast; ring

theorem floor_eq (x : Q) : x.floor = ⌊x.toQ⌋ := by
  have h := floor_spec x
  exact (Int.floor_eq_iff.mpr ⟨h.1, h.2⟩).symm

end Q

/-! ## Correctness of the fuel-bounded logarithms -/

theorem log2fuel_spec : ∀ f m acc, 0 < m → m ≤ 2 ^ f →
    ∃ t, log2fuel f m acc = acc + t ∧ 2 ^ t ≤ m ∧ m < 2 ^ (t + 1) := by
  intro f
  induction f with
  | zero =>
    intro m acc hm hf
    refine ⟨0, rfl, ?_, ?_⟩ <;> simp at hf <;> omega
  | succ f ih =>
    intro m acc hm hf
    by_cases h2 : m < 2
    · exact ⟨0, by simp [log2fuel, h2], by omega, by omega⟩
    · have hrec : log2fuel (f + 1) m acc = log2fuel f (m / 2) (acc + 1) := by
        simp [log2fuel, h2]
      have hpos : 0 < m / 2 := Nat.div_pos (by omega) (by omega)
      have hle : m / 2 ≤ 2 ^ f := by
        have h5 : m ≤ 2 ^ f * 2 := by rwa [pow_succ] at hf
        omega
      obtain ⟨t, ht, h3, h4⟩ := ih (m / 2) (acc + 1) hpos hle
      refine ⟨t + 1, by rw [hrec, ht]; omega, ?_, ?_⟩
      · have : 2 ^ (t + 1) = 2 * 2 ^ t := by ring
        omega
      · have ha : 2 ^ (t + 1 + 1) = 2 * 2 ^ (t + 1) := by ring
        omega

theorem log10fuel_spec : ∀ f m acc, 0 < m → m ≤ 10 ^ f →
    ∃ t, log10fuel f m acc = acc + t ∧ 10 ^ t ≤ m ∧ m < 10 ^ (t + 1) := by
  intro f
  induction f with
  | zero =>
    intro m acc hm hf
    refine ⟨0, rfl, ?_, ?_⟩ <;> simp at hf <;> omega
  | succ f ih =>
    intro m acc hm hf
    by_cases h2 : m < 10
    · exact ⟨0, by simp [log10fuel, h2], by omega, by omega⟩
    · have hrec : log10fuel (f + 1) m acc = log10fuel f (m / 10) (acc + 1) := by
        simp [log10fuel, h2]
      have hpos : 0 < m / 10 := Nat.div_pos (by omega) (by omega)
      have hle : m / 10 ≤ 10 ^ f := by
        have h5 : m ≤ 10 ^ f * 10 := by rwa [pow_succ] at hf
        omega
      obtain ⟨t, ht, h3, h4⟩ := ih (m / 10) (acc + 1) hpos hle
      refine ⟨t + 1, by rw [hrec, ht]; omega, ?_, ?_⟩
      · have : 10 ^ (t + 1) = 10 * 10 ^ t := by ring
        omega
      · have ha : 10 ^ (t + 1 + 1) = 10 * 10 ^ (t + 1) := by ring
        omega

theorem nlog2_spec (m : ℕ) (hm : 0 < m) (hf : m ≤ 2 ^ logFuel) :
    2 ^ nlog2 m ≤ m ∧ m < 2 ^ (nlog2 m + 1) := by
  obtain ⟨t, ht, h1, h2⟩ := log2fuel_spec logFuel m 0 hm hf
  unfold nlog2
  rw [ht]
  simpa using ⟨h1, h2⟩

theorem nlog10_spec (m : ℕ) (hm : 0 < m) (hf : m ≤ 10 ^ logFuel) :
    10 ^ nlog10 m ≤ m ∧ m < 10 ^ (nlog10 m + 1) := by
  obtain ⟨t, ht, h1, h2⟩ := log10fuel_spec logFuel m 0 hm hf
  unfold nlog10
  rw [ht]
  simpa using ⟨h1, h2⟩

/-! ## Correctness of the rational logarithms -/

theorem toQ_as_natAbs (x : Q) (hx : 0 < x.toQ) :
    x.toQ = ((x.n.natAbs : ℚ)) / ((x.d : ℕ) : ℚ) := by
  have hn : 0 < x.n := (Q.toQ_pos_iff x).mp hx
  unfold Q.toQ
  rw [Int.cast_natAbs, abs_of_pos hn]

theorem qlog2floor_spec (x : Q) (hx : 0 < x.toQ)
    (hn : x.n.natAbs ≤ 2 ^ logFuel) (hd : (x.d : ℕ) ≤ 2 ^ logFuel) :
    (2 : ℚ) ^ qlog2floor x ≤ x.toQ ∧ x.toQ < (2 : ℚ) ^ (qlog2floor x + 1) := by
  have hnpos : 0 < x.n := (Q.toQ_pos_iff x).mp hx
  have hnum : 0 < x.n.natAbs := by omega
  obtain ⟨hl1, hl2⟩ := nlog2_spec x.n.natAbs hnum hn
  obtain ⟨hd1, hd2⟩ := nlog2_spec (x.d : ℕ) x.d.pos hd
  clear hn hd
  have hx' := toQ_as_natAbs x hx
  set ln := nlog2 x.n.natAbs with hln
  set ld := nlog2 (x.d : ℕ) with hld
  have hdq : (0 : ℚ) < ((x.d : ℕ) : ℚ) := Q.dpos x
  have h1 : (x.n.natAbs : ℚ) < (2 : ℚ) ^ (ln + 1) := by exact_mod_cast hl2
  have h2 : ((2 : ℚ)) ^ (ld : ℕ) ≤ ((x.d : ℕ) : ℚ) := by exact_mod_cast hd1
  have h3 : ((2 : ℚ)) ^ (ln : ℕ) ≤ (x.n.natAbs : ℚ) := by exact_mod_cast hl1
  have h4 : ((x.d : ℕ) : ℚ) < (2 : ℚ) ^ (ld + 1) := by exact_mod_cast hd2
  have hpowU : (0 : ℚ) < (2 : ℚ) ^ ((ln : ℤ) - (ld : ℤ) + 1) := by positivity
  have hpowL : (0 : ℚ) < (2 : ℚ) ^ ((ln : ℤ) - (ld : ℤ) - 1) := by positivity
  have keyU : (2 : ℚ) ^ (ln + 1 : ℕ) = (2 : ℚ) ^ ((ln : ℤ) - (ld : ℤ) + 1) * (2 : ℚ) ^ (ld : ℕ) := by
    rw [← zpow_natCast (2 : ℚ) ld, ← zpow_add₀ (by norm_num : (2:ℚ) ≠ 0)]
    rw [← zpow_natCast (2 : ℚ) (ln + 1)]
    congr 1
    push_cast
    ring
  have keyL : (2 : ℚ) ^ ((ln : ℤ) - (ld : ℤ) - 1) * (2 : ℚ) ^ (ld + 1 : ℕ) = (2 : ℚ) ^ (ln : ℕ) := by
    rw [← zpow_natCast (2 : ℚ) (ld + 1), ← zpow_add₀ (by norm_num : (2:ℚ) ≠ 0),
      ← zpow_natCast (2 : ℚ) ln]
    congr 1
    push_cast
    ring
  have hup : x.toQ < (2 : ℚ) ^ ((ln : ℤ) - (ld : ℤ) + 1) := by
    rw [hx', div_lt_iff hdq]
    calc (x.n.natAbs : ℚ) < (2 : ℚ) ^ (ln + 1) := h1
      _ = (2 : ℚ) ^ ((ln : ℤ) - (ld : ℤ) + 1) * (2 : ℚ) ^ (ld : ℕ) := keyU
      _ ≤ (2 : ℚ) ^ ((ln : ℤ) - (ld : ℤ) + 1) * ((x.d : ℕ) : ℚ) :=
          mul_le_mul_of_nonneg_left h2 (le_of_lt hpowU)
  have hlo : (2 : ℚ) ^ ((ln : ℤ) - (ld : ℤ) - 1) < x.toQ := by
    rw [hx', lt_div_iff hdq]
    calc (2 : ℚ) ^ ((ln : ℤ) - (ld : ℤ) - 1) * ((x.d : ℕ) : ℚ)
        < (2 : ℚ) ^ ((ln : ℤ) - (ld : ℤ) - 1) * (2 : ℚ) ^ (ld + 1 : ℕ) :=
          mul_lt_mul_of_pos_left h4 hpowL
      _ = (2 : ℚ) ^ (ln : ℕ) := keyL
      _ ≤ (x.n.natAbs : ℚ) := h3
  unfold qlog2floor
  rw [← hln, ← hld]
  by_cases hbr : Q.ltb x (Q.pow2 ((ln : ℤ) - (ld : ℤ))) = true
  · have hlt : x.toQ < (2 : ℚ) ^ ((ln : ℤ) - (ld : ℤ)) := by
      have := (Q.ltb_iff _ _).mp hbr
      rwa [Q.toQ_pow2] at this
    rw [if_pos hbr]
    refine ⟨le_of_lt hlo, ?_⟩
    have heq : (ln : ℤ) - (ld : ℤ) - 1 + 1 = (ln : ℤ) - (ld : ℤ) := by ring
    rwa [heq]
  · have hge : (2 : ℚ) ^ ((ln : ℤ) - (ld : ℤ)) ≤ x.toQ := by
      have := (Q.ltb_iff x (Q.pow2 ((ln : ℤ) - (ld : ℤ)))).not.mp hbr
      rw [Q.toQ_pow2] at this
      exact le_of_not_lt this
    rw [if_neg hbr]
    exact ⟨hge, hup⟩

theorem qlog10floor_spec (x : Q) (hx : 0 < x.toQ)
    (hn : x.n.natAbs ≤ 10 ^ logFuel) (hd : (x.d : ℕ) ≤ 10 ^ logFuel) :
    (10 : ℚ) ^ qlog10floor x ≤ x.toQ ∧ x.toQ < (10 : ℚ) ^ (qlog10floor x + 1) := by
  have hnpos : 0 < x.n := (Q.toQ_pos_iff x).mp hx
  have hnum : 0 < x.n.natAbs := by omega
  obtain ⟨hl1, hl2⟩ := nlog10_spec x.n.natAbs hnum hn
  obtain ⟨hd1, hd2⟩ := nlog10_spec (x.d : ℕ) x.d.pos hd
  clear hn hd
  have hx' := toQ_as_natAbs x hx
  set ln := nlog10 x.n.natAbs with hln
  set ld := nlog10 (x.d : ℕ) with hld
  have hdq : (0 : ℚ) < ((x.d : ℕ) : ℚ) := Q.dpos x
  have h1 : (x.n.natAbs : ℚ) < (10 : ℚ) ^ (ln + 1) := by exact_mod_cast hl2
  have h2 : ((10 : ℚ)) ^ (ld : ℕ) ≤ ((x.d : ℕ) : ℚ) := by exact_mod_cast hd1
  have h3 : ((10 : ℚ)) ^ (ln : ℕ) ≤ (x.n.natAbs : ℚ) := by exact_mod_cast hl1
  have h4 : ((x.d : ℕ) : ℚ) < (10 : ℚ) ^ (ld + 1) := by exact_mod_cast hd2
  have hpowU : (0 : ℚ) < (10 : ℚ) ^ ((ln : ℤ) - (ld : ℤ) + 1) := by positivity
  have hpowL : (0 : ℚ) < (10 : ℚ) ^ ((ln : ℤ) - (ld : ℤ) - 1) := by positivity
  have keyU : (10 : ℚ) ^ (ln + 1 : ℕ) = (10 : ℚ) ^ ((ln : ℤ) - (ld : ℤ) + 1) * (10 : ℚ) ^ (ld : ℕ) := by
    rw [← zpow_natCast (10 : ℚ) ld, ← zpow_add₀ (by norm_num : (10:ℚ) ≠ 0)]
    rw [← zpow_natCast (10 : ℚ) (ln + 1)]
    congr 1
    push_cast
    ring
  have keyL : (10 : ℚ) ^ ((ln : ℤ) - (ld : ℤ) - 1) * (10 : ℚ) ^ (ld + 1 : ℕ) = (10 : ℚ) ^ (ln : ℕ) := by
    rw [← zpow_natCast (10 : ℚ) (ld + 1), ← zpow_add₀ (by norm_num : (10:ℚ) ≠ 0),
      ← zpow_natCast (10 : ℚ) ln]
    congr 1
    push_cast
    ring
  have hup : x.toQ < (10 : ℚ) ^ ((ln : ℤ) - (ld : ℤ) + 1) := by
    rw [hx', div_lt_iff hdq]
    calc (x.n.natAbs : ℚ) < (10 : ℚ) ^ (ln + 1) := h1
      _ = (10 : ℚ) ^ ((ln : ℤ) - (ld : ℤ) + 1) * (10 : ℚ) ^ (ld : ℕ) := keyU
      _ ≤ (10 : ℚ) ^ ((ln : ℤ) - (ld : ℤ) + 1) * ((x.d : ℕ) : ℚ) :=
          mul_le_mul_of_nonneg_left h2 (le_of_lt hpowU)
  have hlo : (10 : ℚ) ^ ((ln : ℤ) - (ld : ℤ) - 1) < x.toQ := by
    rw [hx', lt_div_iff hdq]
    calc (10 : ℚ) ^ ((ln : ℤ) - (ld : ℤ) - 1) * ((x.d : ℕ) : ℚ)
        < (10 : ℚ) ^ ((ln : ℤ) - (ld : ℤ) - 1) * (10 : ℚ) ^ (ld + 1 : ℕ) :=
          mul_lt_mul_of_pos_left h4 hpowL
      _ = (10 : ℚ) ^ (ln : ℕ) := keyL
      _ ≤ (x.n.natAbs : ℚ) := h3
  unfold qlog10floor
  rw [← hln, ← hld]
  by_cases hbr : Q.ltb x (Q.pow10 ((ln : ℤ) - (ld : ℤ))) = true
  · have hlt : x.toQ < (10 : ℚ) ^ ((ln : ℤ) - (ld : ℤ)) := by
      have := (Q.ltb_iff _ _).mp hbr
      rwa [Q.toQ_pow10] at this
    rw [if_pos hbr]
    refine ⟨le_of_lt hlo, ?_⟩
    have heq : (ln : ℤ) - (ld : ℤ) - 1 + 1 = (ln : ℤ) - (ld : ℤ) := by ring
    rwa [heq]
  · have hge : (10 : ℚ) ^ ((ln : ℤ) - (ld : ℤ)) ≤ x.toQ := by
      have := (Q.ltb_iff x (Q.pow10 ((ln : ℤ) - (ld : ℤ)))).not.mp hbr
      rw [Q.toQ_pow10] at this
      exact le_of_not_lt this
    rw [if_neg hbr]
    exact ⟨hge, hup⟩

/-! ## Analysis of the binary64 rounding -/

theorem maxFinite_toQ : maxFinite.toQ = ((2 : ℚ) ^ 53 - 1) * 2 ^ 971 := by
  show ((((2 ^ 53 - 1) * 2 ^ 971 : ℕ) : ℤ) : ℚ) / (((1 : ℕ+) : ℕ) : ℚ) = _
  rw [Nat.cast_mul, Nat.cast_sub (by norm_num)]
  push_cast
  norm_num

theorem rne_le (t : Q) : ((rne t : ℤ) : ℚ) ≤ t.toQ + 1 / 2 := by
  have hf := Q.floor_spec t
  have hs : (Q.sub t (Q.ofInt (Q.floor t))).toQ = t.toQ - (Q.floor t : ℚ) := by
    rw [Q.toQ_sub, Q.toQ_ofInt]
  unfold rne
  split_ifs with h1 h2 h3
  · linarith [hf.1]
  · have hb := (Q.ltb_iff _ _).mp h2
    rw [hs, Q.toQ_half] at hb
    push_cast
    linarith
  · linarith [hf.1]
  · have hb := le_of_not_lt ((Q.ltb_iff _ _).not.mp h1)
    rw [Q.toQ_half, hs] at hb
    push_cast
    linarith

theorem rne_nonneg (t : Q) (h : 0 ≤ t.toQ) : 0 ≤ rne t := by
  have hf := Q.floor_spec t
  have h0 : (0 : ℤ) ≤ Q.floor t + 1 := by
    have : (-1 : ℚ) < (Q.floor t : ℚ) := by linarith [hf.2]
    have : (-1 : ℤ) < Q.floor t := by exact_mod_cast this
    omega
  have h1 : (-1 : ℤ) < Q.floor t := by
    have : (-1 : ℚ) < (Q.floor t : ℚ) := by linarith [hf.2]
    exact_mod_cast this
  unfold rne
  split_ifs <;> omega

theorem rqK_le (x : Q) : rqK x ≤ 1074 := by
  unfold rqK
  split_ifs with h <;> omega

theorem roundQ_ne_nan (x : Q) : roundQ x ≠ JsNum.nan := by
  unfold roundQ
  split_ifs <;> simp

theorem rqV_toQ (x : Q) : (rqV x).toQ = ((rqM x : ℤ) : ℚ) * (2 : ℚ) ^ (-(rqK x)) := by
  unfold rqV
  rw [Q.toQ_mul, Q.toQ_ofInt, Q.toQ_pow2]

theorem rqM_nonneg (x : Q) : 0 ≤ rqM x := by
  unfold rqM
  apply rne_nonneg
  rw [Q.toQ_mul, Q.toQ_abs, Q.toQ_pow2]
  positivity

theorem rqV_nonneg (x : Q) : 0 ≤ (rqV x).toQ := by
  rw [rqV_toQ]
  have := rqM_nonneg x
  positivity

theorem natAbs_toQ (v : Q) : ((v.n.natAbs : ℕ) : ℚ) = |v.toQ| * ((v.d : ℕ) : ℚ) := by
  unfold Q.toQ
  rw [abs_div, abs_of_pos (Q.dpos v), div_mul_cancel₀ _ (Q.dne v), Int.cast_natAbs,
    Int.cast_abs]

theorem pow2_d (e : ℤ) : (((Q.pow2 e).d : ℕ) : ℕ) = if 0 ≤ e then 1 else 2 ^ (-e).toNat := by
  unfold Q.pow2
  split_ifs <;> rfl

theorem rqV_d_le (x : Q) : (((rqV x).d : ℕ) : ℕ) ≤ 2 ^ 1074 := by
  have hk := rqK_le x
  show (((Q.ofInt (rqM x)).d * (Q.pow2 (-(rqK x))).d : ℕ+) : ℕ) ≤ 2 ^ 1074
  rw [PNat.mul_coe]
  have h1 : ((Q.ofInt (rqM x)).d : ℕ) = 1 := rfl
  rw [h1, one_mul, pow2_d]
  split_ifs with h
  · exact Nat.one_le_pow 1074 2 (by omega)
  · have : (- -rqK x).toNat ≤ 1074 := by omega
    calc (2 : ℕ) ^ (- -rqK x).toNat ≤ 2 ^ 1074 := Nat.pow_le_pow_right (by omega) this

theorem rqV_n (x : Q) : (rqV x).n = rqM x * (Q.pow2 (-(rqK x))).n := rfl

theorem goodVal_zero : GoodVal Q.zero := by
  refine ⟨?_, ?_, ?_, ?_⟩
  · rw [Q.toQ_zero, maxFinite_toQ]
    norm_num
  · show ((1 : ℕ+) : ℕ) ≤ 2 ^ 1074
    norm_num
  · show (0 : ℤ).natAbs ≤ 2 ^ 2098
    norm_num
  · intro h
    exact absurd rfl h

theorem goodVal_of_rqV (x : Q) (hle : (rqV x).toQ ≤ maxFinite.toQ) : GoodVal (rqV x) := by
  have habs : |(rqV x).toQ| = (rqV x).toQ := abs_of_nonneg (rqV_nonneg x)
  refine ⟨by rw [habs]; exact hle, rqV_d_le x, ?_, ?_⟩
  · have h1 : (((rqV x).n.natAbs : ℕ) : ℚ) ≤ ((2 : ℚ) ^ 2098) := by
      rw [natAbs_toQ, habs]
      have hd : (((rqV x).d : ℕ) : ℚ) ≤ (2 : ℚ) ^ 1074 := by
        have := rqV_d_le x
        calc (((rqV x).d : ℕ) : ℚ) ≤ ((2 ^ 1074 : ℕ) : ℚ) := by exact_mod_cast this
          _ = (2 : ℚ) ^ 1074 := by push_cast; ring
      have hd0 : (0 : ℚ) ≤ (((rqV x).d : ℕ) : ℚ) := le_of_lt (Q.dpos _)
      have hm0 : (0 : ℚ) ≤ (rqV x).toQ := rqV_nonneg x
      have hmax : maxFinite.toQ ≤ (2 : ℚ) ^ 1024 := by
        rw [maxFinite_toQ]; norm_num
      calc (rqV x).toQ * (((rqV x).d : ℕ) : ℚ) ≤ (2 : ℚ) ^ 1024 * (2 : ℚ) ^ 1074 := by
            apply mul_le_mul (le_trans hle hmax) hd hd0 (by positivity)
        _ = (2 : ℚ) ^ 2098 := by rw [← pow_add]
    have h2 : (((rqV x).n.natAbs : ℕ) : ℚ) ≤ (((2 ^ 2098 : ℕ) : ℕ) : ℚ) := by
      calc (((rqV x).n.natAbs : ℕ) : ℚ) ≤ ((2 : ℚ) ^ 2098) := h1
        _ = (((2 ^ 2098 : ℕ) : ℕ) : ℚ) := by push_cast; ring
    exact_mod_cast h2
  · intro hn
    have hm : rqM x ≠ 0 := by
      intro h0
      apply hn
      rw [rqV_n, h0, zero_mul]
    have hm1 : (1 : ℤ) ≤ rqM x := by
      have := rqM_nonneg x
      omega
    rw [habs, rqV_toQ]
    have hk : -(rqK x) ≥ -1074 := by have := rqK_le x; omega
    calc (2 : ℚ) ^ (-1074 : ℤ) ≤ (2 : ℚ) ^ (-(rqK x)) :=
          zpow_le_zpow_right₀ (by norm_num) hk
      _ = 1 * (2 : ℚ) ^ (-(rqK x)) := (one_mul _).symm
      _ ≤ ((rqM x : ℤ) : ℚ) * (2 : ℚ) ^ (-(rqK x)) := by
          apply mul_le_mul_of_nonneg_right _ (by positivity)
          exact_mod_cast hm1

theorem goodVal_neg (v : Q) (h : GoodVal v) : GoodVal (Q.neg v) := by
  obtain ⟨g1, g2, g3, g4⟩ := h
  refine ⟨?_, g2, ?_, ?_⟩
  · rwa [Q.toQ_neg, abs_neg]
  · show (-v.n).natAbs ≤ 2 ^ 2098
    rwa [Int.natAbs_neg]
  · intro hne
    rw [Q.toQ_neg, abs_neg]
    apply g4
    intro h0
    apply hne
    show -v.n = 0
    rw [h0, neg_zero]

theorem roundQ_good (x : Q) : GoodFinite (roundQ x) := by
  intro v hv
  unfold roundQ at hv
  by_cases h1 : x.n = 0
  · rw [if_pos h1] at hv
    cases hv
    exact goodVal_zero
  · rw [if_neg h1] at hv
    by_cases h2 : Q.ltb maxFinite (rqV x) = true
    · rw [if_pos h2] at hv
      cases hv
    · rw [if_neg h2] at hv
      have hle : (rqV x).toQ ≤ maxFinite.toQ :=
        le_of_not_lt ((Q.ltb_iff maxFinite (rqV x)).not.mp h2)
      have hg := goodVal_of_rqV x hle
      by_cases h3 : x.n < 0
      · rw [if_pos h3] at hv
        cases hv
        exact goodVal_neg _ hg
      · rw [if_neg h3] at hv
        cases hv
        exact hg

theorem add_good (x y : JsNum) : GoodFinite (JsNum.add x y) := by
  intro v hv
  cases x <;> cases y <;> simp only [JsNum.add] at hv
  case' inf.inf => split_ifs at hv
  all_goals first
    | exact roundQ_good _ v hv
    | simp_all

theorem sub_good (x y : JsNum) : GoodFinite (JsNum.sub x y) := by
  intro v hv
  cases x <;> cases y <;> simp only [JsNum.sub] at hv
  case' inf.inf => split_ifs at hv
  all_goals first
    | exact roundQ_good _ v hv
    | simp_all

theorem mul_good (x y : JsNum) : GoodFinite (JsNum.mul x y) := by
  intro v hv
  cases x <;> cases y <;> simp only [JsNum.mul] at hv
  case' inf.finite => split_ifs at hv
  case' finite.inf => split_ifs at hv
  all_goals first
    | exact roundQ_good _ v hv
    | simp_all

theorem div_good (x y : JsNum) : GoodFinite (JsNum.div x y) := by
  intro v hv
  cases x <;> cases y <;> simp only [JsNum.div] at hv
  case' finite.finite => split_ifs at hv
  all_goals first
    | exact roundQ_good _ v hv
    | (cases hv; exact goodVal_zero)
    | simp_all

theorem abs_natAbs_le (y : Q) (h : y.n.natAbs ≤ 2 ^ logFuel) :
    (Q.abs y).n.natAbs ≤ 2 ^ logFuel := by
  show |y.n|.natAbs ≤ _
  rwa [Int.natAbs_abs]

theorem hi12_lt_pow1024 : hi12 < (2 : ℚ) ^ (1024 : ℤ) := by
  rw [show ((1024 : ℤ)) = ((1024 : ℕ) : ℤ) by norm_num, zpow_natCast]
  unfold hi12
  norm_num

theorem hi12_margin : hi12 + (2 : ℚ) ^ (970 : ℤ) ≤ maxFinite.toQ := by
  rw [maxFinite_toQ, show ((970 : ℤ)) = ((970 : ℕ) : ℤ) by norm_num, zpow_natCast]
  unfold hi12
  norm_num

theorem roundQ_finite_of_small (y : Q) (hy : |y.toQ| ≤ hi12)
    (hnn : y.n.natAbs ≤ 2 ^ logFuel) (hdd : (y.d : ℕ) ≤ 2 ^ logFuel) :
    ∃ v, roundQ y = JsNum.finite v := by
  by_cases h0 : y.n = 0
  · exact ⟨Q.zero, by rw [roundQ, if_pos h0]⟩
  · have hpos : 0 < (Q.abs y).toQ := by
      rw [Q.toQ_abs]
      exact abs_pos.mpr fun h => h0 ((Q.nzero_iff y).mpr h)
    obtain ⟨he1, he2⟩ := qlog2floor_spec (Q.abs y) hpos (abs_natAbs_le y hnn) hdd
    have habs_eq : (Q.abs y).toQ = |y.toQ| := Q.toQ_abs y
    have he0le : qlog2floor (Q.abs y) ≤ 1023 := by
      by_contra hc
      push_neg at hc
      have h1 : (2 : ℚ) ^ (1024 : ℤ) ≤ (2 : ℚ) ^ qlog2floor (Q.abs y) :=
        zpow_le_zpow_right₀ (by norm_num) (by omega)
      have h2 : (2 : ℚ) ^ qlog2floor (Q.abs y) ≤ |y.toQ| := by
        rw [← habs_eq]; exact he1
      linarith [hi12_lt_pow1024]
    have hklo : -971 ≤ rqK y := by
      unfold rqK
      split_ifs <;> omega
    have hkhi := rqK_le y
    have hmul : (Q.mul (Q.abs y) (Q.pow2 (rqK y))).toQ = |y.toQ| * (2 : ℚ) ^ rqK y := by
      rw [Q.toQ_mul, Q.toQ_abs, Q.toQ_pow2]
    have hcancel : (2 : ℚ) ^ rqK y * (2 : ℚ) ^ (-(rqK y)) = 1 := by
      rw [← zpow_add₀ (two_ne_zero : (2 : ℚ) ≠ 0)]
      simp
    have hpk : (0 : ℚ) < (2 : ℚ) ^ (-(rqK y)) := by positivity
    have step1 : ((rqM y : ℤ) : ℚ) ≤ |y.toQ| * (2 : ℚ) ^ rqK y + 1 / 2 := by
      have := rne_le (Q.mul (Q.abs y) (Q.pow2 (rqK y)))
      rw [hmul] at this
      exact this
    have h971 : (2 : ℚ) ^ (971 : ℤ) = 2 * (2 : ℚ) ^ (970 : ℤ) := by
      rw [show (971 : ℤ) = 970 + 1 by ring, zpow_add₀ (two_ne_zero : (2 : ℚ) ≠ 0), zpow_one]
      ring
    have hbound : (rqV y).toQ ≤ |y.toQ| + (2 : ℚ) ^ (970 : ℤ) := by
      rw [rqV_toQ]
      calc ((rqM y : ℤ) : ℚ) * (2 : ℚ) ^ (-(rqK y))
          ≤ (|y.toQ| * (2 : ℚ) ^ rqK y + 1 / 2) * (2 : ℚ) ^ (-(rqK y)) :=
            mul_le_mul_of_nonneg_right step1 (le_of_lt hpk)
        _ = |y.toQ| + (1 / 2) * (2 : ℚ) ^ (-(rqK y)) := by
            rw [add_mul, mul_assoc, hcancel]
            ring
        _ ≤ |y.toQ| + (2 : ℚ) ^ (970 : ℤ) := by
            have hle : (2 : ℚ) ^ (-(rqK y)) ≤ (2 : ℚ) ^ (971 : ℤ) :=
              zpow_le_zpow_right₀ (by norm_num) (by omega)
            have : (1 / 2) * (2 : ℚ) ^ (-(rqK y)) ≤ (1 / 2) * (2 : ℚ) ^ (971 : ℤ) := by
              linarith
            rw [h971] at this
            linarith
    have hfinal : (rqV y).toQ ≤ maxFinite.toQ := by
      linarith [hi12_margin]
    refine ⟨if y.n < 0 then Q.neg (rqV y) else rqV y, ?_⟩
    rw [roundQ, if_neg h0, if_neg ?_]
    intro hlt
    exact absurd ((Q.ltb_iff _ _).mp hlt) (not_lt_of_le hfinal)

theorem pow10_n (e : ℤ) : (Q.pow10 e).n = if 0 ≤ e then ((10 ^ e.toNat : ℕ) : ℤ) else 1 := by
  unfold Q.pow10
  split_ifs <;> rfl

theorem pow10_d (e : ℤ) : (((Q.pow10 e).d : ℕ)) = if 0 ≤ e then 1 else 10 ^ (-e).toNat := by
  unfold Q.pow10
  split_ifs <;> rfl

theorem pow10_le_logFuel (k : ℕ) (h : k ≤ 1050) : (10 : ℕ) ^ k ≤ 2 ^ logFuel := by
  calc (10 : ℕ) ^ k ≤ 16 ^ k := Nat.pow_le_pow_left (by omega) k
    _ = 2 ^ (4 * k) := by
        rw [show (16 : ℕ) = 2 ^ 4 by norm_num]
        exact (pow_mul 2 4 k).symm
    _ ≤ 2 ^ logFuel := Nat.pow_le_pow_right (by omega) (by unfold logFuel; omega)

theorem pow2_le_pow10_logFuel (k : ℕ) (h : k ≤ 4200) : (2 : ℕ) ^ k ≤ 10 ^ logFuel := by
  calc (2 : ℕ) ^ k ≤ 10 ^ k := Nat.pow_le_pow_left (by omega) k
    _ ≤ 10 ^ logFuel := Nat.pow_le_pow_right (by omega) (by unfold logFuel; omega)

theorem maxFinite_lt_pow309 : maxFinite.toQ < (10 : ℚ) ^ (309 : ℤ) := by
  rw [maxFinite_toQ, show ((309 : ℤ)) = ((309 : ℕ) : ℤ) by norm_num, zpow_natCast]
  norm_num

theorem pow_neg324_lt : (10 : ℚ) ^ (-324 : ℤ) < (2 : ℚ) ^ (-1074 : ℤ) := by
  rw [show (-324 : ℤ) = -((324 : ℕ) : ℤ) by norm_num,
    show (-1074 : ℤ) = -((1074 : ℕ) : ℤ) by norm_num, zpow_neg, zpow_neg,
    zpow_natCast, zpow_natCast]
  apply inv_lt_inv_of_lt (by positivity)
  norm_num

theorem floor_max_div : (⌊maxFinite.toQ * (10 : ℚ) ^ (-297 : ℤ) + 1 / 2⌋ : ℤ) = 179769313486 := by
  rw [maxFinite_toQ, show (-297 : ℤ) = -((297 : ℕ) : ℤ) by norm_num, zpow_neg, zpow_natCast,
    Int.floor_eq_iff, ← div_eq_mul_inv]
  have h10 : (0 : ℚ) < (10 : ℚ) ^ (297 : ℕ) := by positivity
  have h2 : (0 : ℚ) < (10 : ℚ) ^ (297 : ℕ) * 2 := by positivity
  have key : ((2 : ℚ) ^ 53 - 1) * 2 ^ 971 / 10 ^ 297 + 1 / 2
      = (((2 : ℚ) ^ 53 - 1) * 2 ^ 971 * 2 + 10 ^ 297 * 1) / (10 ^ 297 * 2) := by
    rw [div_add_div _ _ (ne_of_gt h10) two_ne_zero]
  rw [key]
  constructor
  · rw [le_div_iff h2]
    norm_num
  · rw [div_lt_iff h2]
    norm_num

theorem round12_bounds (r : Q) (hg : GoodVal r) :
    |(round12 r).toQ| ≤ hi12 ∧ (round12 r).n.natAbs ≤ 2 ^ logFuel ∧
      (((round12 r).d : ℕ)) ≤ 2 ^ logFuel := by
  obtain ⟨g1, g2, g3, g4⟩ := hg
  by_cases h0 : r.n = 0
  · rw [round12, if_pos h0]
    refine ⟨?_, ?_, ?_⟩
    · rw [Q.toQ_zero]
      unfold hi12
      norm_num
    · show (0 : ℤ).natAbs ≤ 2 ^ logFuel
      simp
    · show ((1 : ℕ+) : ℕ) ≤ 2 ^ logFuel
      have := Nat.one_le_pow logFuel 2 (by omega)
      simpa using this
  · have hq0 : 0 < |r.toQ| := abs_pos.mpr fun h => h0 ((Q.nzero_iff r).mpr h)
    have hpos : 0 < (Q.abs r).toQ := by rwa [Q.toQ_abs]
    specialize g4 h0
    have hsn : (Q.abs r).n.natAbs ≤ 10 ^ logFuel := by
      have h1 : (Q.abs r).n.natAbs = r.n.natAbs := by
        show |r.n|.natAbs = _
        rw [Int.natAbs_abs]
      rw [h1]
      exact le_trans g3 (pow2_le_pow10_logFuel 2098 (by omega))
    have hsd : ((Q.abs r).d : ℕ) ≤ 10 ^ logFuel := by
      exact le_trans g2 (pow2_le_pow10_logFuel 1074 (by omega))
    obtain ⟨he1, he2⟩ := qlog10floor_spec (Q.abs r) hpos hsn hsd
    rw [Q.toQ_abs] at he1 he2
    set e := r12E r with hee
    have hee2 : qlog10floor (Q.abs r) = e := rfl
    rw [hee2] at he1 he2
    have hele : e ≤ 308 := by
      by_contra hc
      push_neg at hc
      have h1 : (10 : ℚ) ^ (309 : ℤ) ≤ (10 : ℚ) ^ e :=
        zpow_le_zpow_right₀ (by norm_num) (by omega)
      linarith [maxFinite_lt_pow309]
    have hege : -324 ≤ e := by
      by_contra hc
      push_neg at hc
      have h1 : (10 : ℚ) ^ (e + 1) ≤ (10 : ℚ) ^ (-324 : ℤ) :=
        zpow_le_zpow_right₀ (by norm_num) (by omega)
      linarith [pow_neg324_lt]
    -- the scaled mantissa
    have hT : (Q.mul (Q.abs r) (Q.pow10 (11 - e))).toQ = |r.toQ| * (10 : ℚ) ^ (11 - e) := by
      rw [Q.toQ_mul, Q.toQ_abs, Q.toQ_pow10]
    have hpow_pos : (0 : ℚ) < (10 : ℚ) ^ (11 - e) := by positivity
    have hT_lo : (10 : ℚ) ^ (11 : ℤ) ≤ |r.toQ| * (10 : ℚ) ^ (11 - e) := by
      calc (10 : ℚ) ^ (11 : ℤ) = (10 : ℚ) ^ e * (10 : ℚ) ^ (11 - e) := by
            rw [← zpow_add₀ (by norm_num : (10 : ℚ) ≠ 0)]
            congr 1
            ring
        _ ≤ |r.toQ| * (10 : ℚ) ^ (11 - e) :=
            mul_le_mul_of_nonneg_right he1 (le_of_lt hpow_pos)
    have hT_hi : |r.toQ| * (10 : ℚ) ^ (11 - e) < (10 : ℚ) ^ (12 : ℤ) := by
      calc |r.toQ| * (10 : ℚ) ^ (11 - e) < (10 : ℚ) ^ (e + 1) * (10 : ℚ) ^ (11 - e) :=
            mul_lt_mul_of_pos_right he2 hpow_pos
        _ = (10 : ℚ) ^ (12 : ℤ) := by
            rw [← zpow_add₀ (by norm_num : (10 : ℚ) ≠ 0)]
            congr 1
            ring
    have hsfloor : r12S r = ⌊|r.toQ| * (10 : ℚ) ^ (11 - e) + 1 / 2⌋ := by
      unfold r12S
      rw [Q.floor_eq, Q.toQ_add, hT, Q.toQ_half]
    have hs_le : ((r12S r : ℤ) : ℚ) ≤ |r.toQ| * (10 : ℚ) ^ (11 - e) + 1 / 2 := by
      rw [hsfloor]
      exact Int.floor_le _
    have hs_gt : |r.toQ| * (10 : ℚ) ^ (11 - e) + 1 / 2 < ((r12S r : ℤ) : ℚ) + 1 := by
      rw [hsfloor]
      exact Int.lt_floor_add_one _
    have hs_nonneg : 0 ≤ r12S r := by
      by_contra hc
      push_neg at hc
      have h1 : r12S r + 1 ≤ 0 := by omega
      have h2 : ((r12S r : ℤ) : ℚ) + 1 ≤ 0 := by exact_mod_cast h1
      have h3 : (0 : ℚ) ≤ |r.toQ| * (10 : ℚ) ^ (11 - e) := by positivity
      linarith
    have hs_hi : r12S r ≤ 10 ^ 12 := by
      have h1 : ((r12S r : ℤ) : ℚ) < ((10 : ℚ) ^ (12 : ℤ)) + 1 := by linarith
      have h2 : ((r12S r : ℤ) : ℚ) < (((10 ^ 12 + 1 : ℤ)) : ℚ) := by
        rw [show ((12 : ℤ)) = ((12 : ℕ) : ℤ) by norm_num, zpow_natCast] at h1
        push_cast
        linarith
      have : r12S r < 10 ^ 12 + 1 := by exact_mod_cast h2
      omega
    -- the rounded value
    have hY : (r12Y r).toQ = ((r12S r : ℤ) : ℚ) * (10 : ℚ) ^ (e - 11) := by
      unfold r12Y
      rw [Q.toQ_mul, Q.toQ_ofInt, Q.toQ_pow10, ← hee]
    have hY_nonneg : 0 ≤ (r12Y r).toQ := by
      rw [hY]
      have : (0 : ℚ) ≤ ((r12S r : ℤ) : ℚ) := by exact_mod_cast hs_nonneg
      positivity
    have hcancel : (10 : ℚ) ^ (11 - e) * (10 : ℚ) ^ (e - 11) = 1 := by
      rw [← zpow_add₀ (by norm_num : (10 : ℚ) ≠ 0)]
      norm_num
    have hY_le : (r12Y r).toQ ≤ |r.toQ| + (1 / 2) * (10 : ℚ) ^ (e - 11) := by
      rw [hY]
      have hp : (0 : ℚ) < (10 : ℚ) ^ (e - 11) := by positivity
      calc ((r12S r : ℤ) : ℚ) * (10 : ℚ) ^ (e - 11)
          ≤ (|r.toQ| * (10 : ℚ) ^ (11 - e) + 1 / 2) * (10 : ℚ) ^ (e - 11) :=
            mul_le_mul_of_nonneg_right hs_le (le_of_lt hp)
        _ = |r.toQ| * ((10 : ℚ) ^ (11 - e) * (10 : ℚ) ^ (e - 11))
              + (1 / 2) * (10 : ℚ) ^ (e - 11) := by ring
        _ = |r.toQ| + (1 / 2) * (10 : ℚ) ^ (e - 11) := by rw [hcancel, mul_one]
    have hY_hi12 : (r12Y r).toQ ≤ hi12 := by
      by_cases he307 : e ≤ 307
      · have h1 : |r.toQ| < (10 : ℚ) ^ (308 : ℤ) := by
          calc |r.toQ| < (10 : ℚ) ^ (e + 1) := he2
            _ ≤ (10 : ℚ) ^ (308 : ℤ) := zpow_le_zpow_right₀ (by norm_num) (by omega)
        have h2 : (10 : ℚ) ^ (e - 11) ≤ (10 : ℚ) ^ (296 : ℤ) :=
          zpow_le_zpow_right₀ (by norm_num) (by omega)
        have h3 : (10 : ℚ) ^ (308 : ℤ) + (10 : ℚ) ^ (296 : ℤ) ≤ hi12 := by
          rw [show ((308 : ℤ)) = ((308 : ℕ) : ℤ) by norm_num,
            show ((296 : ℤ)) = ((296 : ℕ) : ℤ) by norm_num, zpow_natCast, zpow_natCast]
          unfold hi12
          norm_num
        linarith
      · have he308 : e = 308 := by omega
        have h11e : (11 : ℤ) - e = -297 := by omega
        have he11 : e - 11 = 297 := by omega
        have hsle : r12S r ≤ 179769313486 := by
          rw [hsfloor, h11e, ← floor_max_div]
          apply Int.floor_le_floor
          have h1 : |r.toQ| * (10 : ℚ) ^ (-297 : ℤ) ≤ maxFinite.toQ * (10 : ℚ) ^ (-297 : ℤ) :=
            mul_le_mul_of_nonneg_right g1 (le_of_lt (by positivity))
          linarith
        rw [hY, he11]
        calc ((r12S r : ℤ) : ℚ) * (10 : ℚ) ^ (297 : ℤ)
            ≤ (179769313486 : ℚ) * (10 : ℚ) ^ (297 : ℤ) := by
              apply mul_le_mul_of_nonneg_right _ (le_of_lt (by positivity))
              exact_mod_cast hsle
          _ = hi12 := by
              rw [show ((297 : ℤ)) = ((297 : ℕ) : ℤ) by norm_num, zpow_natCast]
              unfold hi12
              ring
    -- numerator and denominator sizes of r12Y r
    have hYn : (r12Y r).n = r12S r * (Q.pow10 (e - 11)).n := by
      unfold r12Y
      rw [← hee]
      rfl
    have hYd : (((r12Y r).d : ℕ)) = 1 * ((Q.pow10 (e - 11)).d : ℕ) := by
      unfold r12Y
      rw [← hee]
      show ((1 * (Q.pow10 (e - 11)).d : ℕ+) : ℕ) = _
      rw [PNat.mul_coe, PNat.one_coe]
    have hsabs : (r12S r).natAbs ≤ 10 ^ 12 := by omega
    have hYn_le : (r12Y r).n.natAbs ≤ 2 ^ logFuel := by
      rw [hYn, Int.natAbs_mul, pow10_n]
      split_ifs with hcase
      · have h1 : (((10 ^ (e - 11).toNat : ℕ) : ℤ)).natAbs = 10 ^ (e - 11).toNat :=
          Int.natAbs_ofNat _
        rw [h1]
        have h2 : (e - 11).toNat ≤ 297 := by omega
        calc (r12S r).natAbs * 10 ^ (e - 11).toNat
            ≤ 10 ^ 12 * 10 ^ 297 :=
              Nat.mul_le_mul hsabs (Nat.pow_le_pow_right (by omega) h2)
          _ = 10 ^ 309 := by rw [← pow_add]
          _ ≤ 2 ^ logFuel := pow10_le_logFuel 309 (by omega)
      · simp only [Int.natAbs_one, mul_one]
        exact le_trans hsabs (pow10_le_logFuel 12 (by omega))
    have hYd_le : (((r12Y r).d : ℕ)) ≤ 2 ^ logFuel := by
      rw [hYd, one_mul, pow10_d]
      split_ifs with hcase
      · exact Nat.one_le_pow logFuel 2 (by omega)
      · have h2 : (-(e - 11)).toNat ≤ 335 := by omega
        calc (10 : ℕ) ^ (-(e - 11)).toNat ≤ 10 ^ 335 := Nat.pow_le_pow_right (by omega) h2
          _ ≤ 2 ^ logFuel := pow10_le_logFuel 335 (by omega)
    -- assemble, splitting on the sign
    have habsY : |(r12Y r).toQ| = (r12Y r).toQ := abs_of_nonneg hY_nonneg
    rw [round12, if_neg h0]
    by_cases hneg : r.n < 0
    · rw [if_pos hneg]
      refine ⟨?_, ?_, ?_⟩
      · rw [Q.toQ_neg, abs_neg, habsY]
        exact hY_hi12
      · show (-(r12Y r).n).natAbs ≤ 2 ^ logFuel
        rwa [Int.natAbs_neg]
      · exact hYd_le
    · rw [if_neg hneg]
      exact ⟨by rwa [habsY], hYn_le, hYd_le⟩

/-! ## Display-string lemmas, the reachability invariant, and the claims -/

theorem digCh_isDigit (m : ℕ) : (digCh m).isDigit = true := by
  unfold digCh
  split_ifs <;> decide

theorem digCh_ne_dot (m : ℕ) : digCh m ≠ '.' := by
  unfold digCh
  split_ifs <;> decide

theorem natDigitsF_ne_nil (f m : ℕ) (hf : 0 < f) : natDigitsF f m ≠ [] := by
  match f with
  | 0 => exact absurd hf (by omega)
  | g + 1 =>
    rw [natDigitsF]
    split_ifs
    · simp
    · simp

theorem mem_natDigitsF (f m : ℕ) (c : Char) (hc : c ∈ natDigitsF f m) :
    c.isDigit = true ∧ c ≠ '.' := by
  induction f generalizing m with
  | zero => simp [natDigitsF] at hc
  | succ g ih =>
    rw [natDigitsF] at hc
    split_ifs at hc
    · rw [List.mem_singleton] at hc
      exact hc ▸ ⟨digCh_isDigit m, digCh_ne_dot m⟩
    · rw [List.mem_append, List.mem_singleton] at hc
      rcases hc with hc | hc
      · exact ih _ hc
      · exact hc ▸ ⟨digCh_isDigit (m % 10), digCh_ne_dot (m % 10)⟩

theorem natDigits_ne_nil (m : ℕ) : natDigits m ≠ [] :=
  natDigitsF_ne_nil logFuel m (by norm_num [logFuel])

theorem mem_natDigits (m : ℕ) (c : Char) (hc : c ∈ natDigits m) :
    c.isDigit = true ∧ c ≠ '.' := mem_natDigitsF logFuel m c hc

theorem natDigits_no_dot (m : ℕ) : (natDigits m).count '.' = 0 :=
  List.count_eq_zero.mpr fun hm => (mem_natDigits m '.' hm).2 rfl

theorem count_eq_zero_of_subset_natDigits (m : ℕ) (l : List Char)
    (h : ∀ x ∈ l, x ∈ natDigits m) : l.count '.' = 0 :=
  List.count_eq_zero.mpr fun hm => (mem_natDigits m '.' (h '.' hm)).2 rfl

theorem replicate_zero_no_dot (j : ℕ) : (List.replicate j '0').count '.' = 0 :=
  List.count_eq_zero.mpr fun hm => by
    have := List.eq_of_mem_replicate hm
    exact absurd this (by decide)

theorem fmtDigits_props (n : ℤ) (s k : ℕ) :
    dotCount (fmtDigits n s k) ≤ 1 ∧ headDigit (fmtDigits n s k).data = true := by
  rcases hds : natDigits s with _ | ⟨c, rest⟩
  · exact absurd hds (natDigits_ne_nil s)
  have hcdig : c.isDigit = true :=
    (mem_natDigits s c (by rw [hds]; exact List.mem_cons_self c rest)).1
  have hrest : ∀ x ∈ rest, x ∈ natDigits s := fun x hx => by
    rw [hds]; exact List.mem_cons_of_mem c hx
  simp only [fmtDigits]
  rw [hds]
  by_cases h1 : (k : ℤ) ≤ n ∧ n ≤ 21
  · rw [if_pos h1]
    constructor
    · show ((c :: rest) ++ List.replicate (n - (k : ℤ)).toNat '0').count '.' ≤ 1
      rw [List.count_append, List.count_cons, replicate_zero_no_dot,
        count_eq_zero_of_subset_natDigits s rest hrest]
      simp [(mem_natDigits s c (by rw [hds]; exact List.mem_cons_self c rest)).2]
    · show headDigit (c :: (rest ++ List.replicate (n - (k : ℤ)).toNat '0')) = true
      exact hcdig
  rw [if_neg h1]
  by_cases h2 : 0 < n ∧ n ≤ 21
  · rw [if_pos h2]
    obtain ⟨j, hj⟩ : ∃ j, n.toNat = j + 1 := ⟨n.toNat - 1, by omega⟩
    rw [hj, List.take_succ_cons]
    constructor
    · show ((c :: List.take j rest) ++ '.' :: List.drop (j + 1) (c :: rest)).count '.' ≤ 1
      rw [List.count_append, List.count_cons, List.count_cons,
        count_eq_zero_of_subset_natDigits s (List.take j rest)
          (fun x hx => hrest x (List.mem_of_mem_take hx)),
        count_eq_zero_of_subset_natDigits s (List.drop (j + 1) (c :: rest))
          (fun x hx => by rw [hds]; exact List.mem_of_mem_drop hx)]
      simp [(mem_natDigits s c (by rw [hds]; exact List.mem_cons_self c rest)).2]
    · show headDigit (c :: (List.take j rest ++ '.' :: List.drop (j + 1) (c :: rest))) = true
      exact hcdig
  rw [if_neg h2]
  by_cases h3 : -6 < n ∧ n ≤ 0
  · rw [if_pos h3]
    constructor
    · show ('0' :: '.' :: (List.replicate (-n).toNat '0' ++ c :: rest)).count '.' ≤ 1
      rw [List.count_cons, List.count_cons, List.count_append, replicate_zero_no_dot,
        List.count_cons, count_eq_zero_of_subset_natDigits s rest hrest]
      simp [(mem_natDigits s c (by rw [hds]; exact List.mem_cons_self c rest)).2]
    · rfl
  rw [if_neg h3]
  have hcne : c ≠ '.' := (mem_natDigits s c (by rw [hds]; exact List.mem_cons_self c rest)).2
  have hsgne : (if n - 1 < 0 then '-' else '+') ≠ '.' := by split_ifs <;> decide
  have hsuffix : ('e' :: (if n - 1 < 0 then '-' else '+') ::
      natDigits (n - 1).natAbs).count '.' = 0 := by
    rw [List.count_cons, List.count_cons, natDigits_no_dot,
      if_neg (fun h => hsgne (eq_of_beq h)), if_neg (by decide)]
  rcases rest with _ | ⟨c2, rest2⟩
  · constructor
    · show (c :: 'e' :: (if n - 1 < 0 then '-' else '+') ::
        natDigits (n - 1).natAbs).count '.' ≤ 1
      rw [List.count_cons]
      rw [hsuffix, if_neg (fun h => hcne (eq_of_beq h))]
      omega
    · exact hcdig
  · constructor
    · show (c :: '.' :: ((c2 :: rest2) ++ 'e' :: (if n - 1 < 0 then '-' else '+') ::
        natDigits (n - 1).natAbs)).count '.' ≤ 1
      rw [List.count_cons, List.count_cons, List.count_append, hsuffix,
        count_eq_zero_of_subset_natDigits s (c2 :: rest2) hrest,
        if_neg (fun h => hcne (eq_of_beq h)), if_pos (by decide)]
    · exact hcdig

theorem jsPosString_props (v : Q) :
    dotCount (jsPosString v) ≤ 1 ∧ headDigit (jsPosString v).data = true := by
  rw [jsPosString]
  rcases ht : tsLoop v (qlog10floor v + 1) 17 1 with _ | ⟨n1, s, k⟩
  · exact fmtDigits_props _ _ _
  · exact fmtDigits_props _ _ _

theorem headDigit_startsNumeric (s : String) (h : headDigit s.data = true) :
    startsNumeric s = true := by
  rw [startsNumeric]
  rcases hl : s.data with _ | ⟨c, _ | ⟨c2, l⟩⟩ <;> rw [hl] at h
  · exact absurd h (by decide)
  · exact h
  · have hc : c.isDigit = true := h
    show (c.isDigit || (c == '-' && c2.isDigit)) = true
    rw [hc, Bool.true_or]

theorem data_append_string (s t : String) : (s ++ t).data = s.data ++ t.data :=
  String.data_append s t

theorem dotCount_append (s t : String) : dotCount (s ++ t) = dotCount s + dotCount t := by
  rw [dotCount, dotCount, dotCount, data_append_string, List.count_append]

theorem jsToString_finite_props (v : Q) :
    dotCount (jsToString (JsNum.finite v)) ≤ 1 ∧
      startsNumeric (jsToString (JsNum.finite v)) = true := by
  rw [jsToString]
  by_cases h0 : v.n = 0
  · rw [if_pos h0]
    exact ⟨by decide, by decide⟩
  rw [if_neg h0]
  by_cases hneg : v.n < 0
  · rw [if_pos hneg]
    obtain ⟨hdot, hhead⟩ := jsPosString_props (Q.abs v)
    constructor
    · rw [dotCount_append]
      have : dotCount "-" = 0 := by decide
      omega
    · rw [startsNumeric, data_append_string]
      show (match ('-' :: (jsPosString (Q.abs v)).data : List Char) with
        | [] => false
        | [c] => c.isDigit
        | c :: c2 :: _ => c.isDigit || (c == '-' && c2.isDigit)) = true
      rcases hl : (jsPosString (Q.abs v)).data with _ | ⟨c2, l⟩
      · rw [hl] at hhead
        exact absurd hhead (by decide)
      · rw [hl] at hhead
        have hc : c2.isDigit = true := hhead
        simp [hc]
  · rw [if_neg hneg]
    exact ⟨(jsPosString_props v).1, headDigit_startsNumeric _ (jsPosString_props v).2⟩

theorem typedTail_append_digit (cs : List Char) (b : Bool) (c : Char)
    (hc : c.isDigit = true) (h : typedTail b cs = true) :
    typedTail b (cs ++ [c]) = true := by
  induction cs generalizing b with
  | nil =>
    show typedTail b [c] = true
    rw [typedTail, if_pos hc]
    rfl
  | cons a cs2 ih =>
    rw [List.cons_append, typedTail]
    rw [typedTail] at h
    by_cases ha : a.isDigit = true
    · rw [if_pos ha] at h ⊢
      exact ih _ h
    · rw [if_neg ha] at h ⊢
      by_cases hd : ((a == '.') && !b) = true
      · rw [if_pos hd] at h ⊢
        exact ih _ h
      · rw [if_neg hd] at h
        exact absurd h (by decide)

theorem typedTail_append_dot (cs : List Char) (hnd : '.' ∉ cs)
    (h : typedTail false cs = true) : typedTail false (cs ++ ['.']) = true := by
  induction cs with
  | nil =>
    show typedTail false ['.'] = true
    rfl
  | cons a cs2 ih =>
    rw [List.cons_append, typedTail]
    rw [typedTail] at h
    have hane : a ≠ '.' := fun he => hnd (he ▸ List.mem_cons_self a cs2)
    by_cases ha : a.isDigit = true
    · rw [if_pos ha] at h ⊢
      exact ih (fun hm => hnd (List.mem_cons_of_mem a hm)) h
    · rw [if_neg ha] at h ⊢
      have hd : ((a == '.') && !false) = false := by
        rw [Bool.not_false, Bool.and_true]
        exact beq_eq_false_iff_ne.mpr hane
      rw [hd] at h
      simp at h

theorem TypedDisplay_append_digit (s : String) (c : Char) (hc : c.isDigit = true)
    (h : TypedDisplay s = true) : TypedDisplay (s ++ ⟨[c]⟩) = true := by
  rw [TypedDisplay] at h ⊢
  rw [data_append_string]
  rcases hl : s.data with _ | ⟨a, cs⟩ <;> rw [hl] at h
  · exact absurd h (by decide)
  · rw [List.cons_append]
    show (a.isDigit && typedTail false (cs ++ [c])) = true
    have ha : a.isDigit = true := by
      rcases Bool.and_eq_true_iff.mp h with ⟨h1, _⟩
      exact h1
    have ht : typedTail false cs = true := by
      rcases Bool.and_eq_true_iff.mp h with ⟨_, h2⟩
      exact h2
    rw [ha, typedTail_append_digit cs false c hc ht]
    rfl

theorem TypedDisplay_append_dot (s : String) (hnd : s.data.contains '.' = false)
    (h : TypedDisplay s = true) : TypedDisplay (s ++ ".") = true := by
  rw [TypedDisplay] at h ⊢
  rw [data_append_string]
  have hnm : '.' ∉ s.data := by simpa using hnd
  rcases hl : s.data with _ | ⟨a, cs⟩ <;> rw [hl] at h hnm
  · exact absurd h (by decide)
  · rw [List.cons_append]
    show (a.isDigit && typedTail false (cs ++ ['.'])) = true
    have ha : a.isDigit = true := by
      rcases Bool.and_eq_true_iff.mp h with ⟨h1, _⟩
      exact h1
    have ht : typedTail false cs = true := by
      rcases Bool.and_eq_true_iff.mp h with ⟨_, h2⟩
      exact h2
    rw [ha, typedTail_append_dot cs (fun hm => hnm (List.mem_cons_of_mem a hm)) ht]
    rfl

theorem TypedDisplay_startsNumeric (s : String) (h : TypedDisplay s = true) :
    startsNumeric s = true := by
  apply headDigit_startsNumeric
  rw [TypedDisplay] at h
  rcases hl : s.data with _ | ⟨a, cs⟩ <;> rw [hl] at h
  · exact absurd h (by decide)
  · show a.isDigit = true
    exact (Bool.and_eq_true_iff.mp h).1

theorem startsNumeric_append (s t : String) (h : startsNumeric s = true) :
    startsNumeric (s ++ t) = true := by
  rw [startsNumeric] at h ⊢
  rw [data_append_string]
  rcases hl : s.data with _ | ⟨c, _ | ⟨c2, l⟩⟩ <;> rw [hl] at h
  · exact absurd h (by decide)
  · show (match c :: t.data with
      | [] => false
      | [a] => a.isDigit
      | a :: a2 :: _ => a.isDigit || (a == '-' && a2.isDigit)) = true
    rcases t.data with _ | ⟨d, l2⟩
    · exact h
    · show (c.isDigit || (c == '-' && d.isDigit)) = true
      have hc : c.isDigit = true := h
      rw [hc, Bool.true_or]
  · show (c.isDigit || (c == '-' && c2.isDigit)) = true
    exact h

theorem readDigits_cnt_le (l : List Char) : ∀ acc cnt, cnt ≤ (readDigits acc cnt l).2.1 := by
  induction l with
  | nil => intro acc cnt; rw [readDigits]
  | cons c cs ih =>
    intro acc cnt
    rw [readDigits]
    by_cases hc : c.isDigit = true
    · rw [if_pos hc]
      exact le_trans (by omega) (ih _ (cnt + 1))
    · rw [if_neg hc]

theorem readDigits_cnt_pos (c : Char) (cs : List Char) (hc : c.isDigit = true) :
    1 ≤ (readDigits 0 0 (c :: cs)).2.1 := by
  rw [readDigits, if_pos hc]
  exact readDigits_cnt_le cs _ 1

theorem digit_ne_minus (c : Char) (hc : c.isDigit = true) : (c == '-') = false := by
  rcases hb : c == '-' with _ | _
  · rfl
  · rw [eq_of_beq hb] at hc
    exact absurd hc (by decide)

theorem digit_ne_plus (c : Char) (hc : c.isDigit = true) : (c == '+') = false := by
  rcases hb : c == '+' with _ | _
  · rfl
  · rw [eq_of_beq hb] at hc
    exact absurd hc (by decide)

theorem startsNumeric_ipart (s : String) (h : startsNumeric s = true) :
    1 ≤ (ipartOf s.data).2.1 := by
  rw [startsNumeric] at h
  rw [ipartOf, afterSign]
  rcases hl : s.data with _ | ⟨c, _ | ⟨c2, l⟩⟩ <;> rw [hl] at h
  · exact absurd h (by decide)
  · rw [headIs, headIs, digit_ne_minus c h, digit_ne_plus c h]
    show 1 ≤ (readDigits 0 0 [c]).2.1
    exact readDigits_cnt_pos c [] h
  · rcases Bool.or_eq_true_iff.mp h with hd | hm
    · rw [headIs, headIs, digit_ne_minus c hd, digit_ne_plus c hd]
      show 1 ≤ (readDigits 0 0 (c :: c2 :: l)).2.1
      exact readDigits_cnt_pos c (c2 :: l) hd
    · rcases Bool.and_eq_true_iff.mp hm with ⟨hm1, hd2⟩
      rw [headIs, hm1]
      show 1 ≤ (readDigits 0 0 (c2 :: l)).2.1
      exact readDigits_cnt_pos c2 l hd2

theorem startsNumeric_decValue (s : String) (h : startsNumeric s = true) :
    (decValue? s).isSome = true := by
  have h1 := startsNumeric_ipart s h
  rw [decValue?]
  rw [if_neg (by omega)]
  rfl

theorem parseFloat_ne_nan (s : String) (h : startsNumeric s = true) :
    parseFloat s ≠ JsNum.nan := by
  rw [parseFloat]
  rcases hd : decValue? s with _ | q
  · have hs := startsNumeric_decValue s h
    rw [hd] at hs
    simp at hs
  · exact roundQ_ne_nan q

theorem fmt12_finite (r : Q) (hg : GoodVal r) :
    ∃ v, fmt12 (JsNum.finite r) = JsNum.finite v := by
  obtain ⟨h1, h2, h3⟩ := round12_bounds r hg
  obtain ⟨v, hv⟩ := roundQ_finite_of_small (round12 r) h1 h2 h3
  exact ⟨v, hv⟩

theorem isFinite_exists (z : JsNum) (h : z.isFinite = true) : ∃ v, z = JsNum.finite v := by
  cases z with
  | nan => exact absurd h (by decide)
  | inf b => cases b <;> exact absurd h (by decide)
  | finite q => exact ⟨q, rfl⟩

theorem digitString_facts (d : Fin 10) :
    dotCount (digitString d) = 0 ∧ startsNumeric (digitString d) = true ∧
      TypedDisplay (digitString d) = true := by
  match d with
  | 0 => exact ⟨by decide, by decide, by decide⟩
  | 1 => exact ⟨by decide, by decide, by decide⟩
  | 2 => exact ⟨by decide, by decide, by decide⟩
  | 3 => exact ⟨by decide, by decide, by decide⟩
  | 4 => exact ⟨by decide, by decide, by decide⟩
  | 5 => exact ⟨by decide, by decide, by decide⟩
  | 6 => exact ⟨by decide, by decide, by decide⟩
  | 7 => exact ⟨by decide, by decide, by decide⟩
  | 8 => exact ⟨by decide, by decide, by decide⟩
  | 9 => exact ⟨by decide, by decide, by decide⟩

theorem contains_false_dotCount (s : String) (h : s.data.contains '.' = false) :
    dotCount s = 0 := by
  rw [dotCount]
  exact List.count_eq_zero.mpr (by simpa using h)

theorem inv_initial : StateInv initialState := by
  refine ⟨rfl, by decide, by decide, fun _ => by decide, fun pv hpv => by cases hpv⟩

theorem inv_inputNumber (d : Fin 10) (s : CalculatorState) (h : StateInv s) :
    StateInv (inputNumber (digitString d) s) := by
  obtain ⟨hop, hdot, hsn, htd, hprev⟩ := h
  obtain ⟨hd0, hd1, hd2⟩ := digitString_facts d
  rw [inputNumber]
  by_cases hw : s.waitingForOperand = true
  · rw [if_pos hw]
    exact ⟨hop, by rw [hd0]; omega, hd1, fun _ => hd2, hprev⟩
  · rw [if_neg hw]
    have htd2 : TypedDisplay s.display = true := htd (Bool.not_eq_true _ ▸ Bool.eq_false_iff.mpr (fun he => hw he))
    by_cases hz : s.display = "0"
    · rw [if_pos hz]
      exact ⟨hop, by rw [hd0]; omega, hd1, fun _ => hd2, hprev⟩
    · rw [if_neg hz]
      refine ⟨hop, ?_, ?_, ?_, hprev⟩
      · show dotCount (s.display ++ digitString d) ≤ 1
        rw [dotCount_append, hd0]
        omega
      · exact startsNumeric_append s.display (digitString d) hsn
      · intro _
        exact TypedDisplay_append_digit s.display (digCh d.val) (digCh_isDigit d.val) htd2

theorem inv_inputDecimal (s : CalculatorState) (h : StateInv s) :
    StateInv (inputDecimal s) := by
  obtain ⟨hop, hdot, hsn, htd, hprev⟩ := h
  rw [inputDecimal]
  by_cases hw : s.waitingForOperand = true
  · rw [if_pos hw]
    refine ⟨hop, ?_, ?_, fun _ => ?_, hprev⟩
    · show dotCount "0." ≤ 1
      decide
    · show startsNumeric "0." = true
      decide
    · show TypedDisplay "0." = true
      decide
  · rw [if_neg hw]
    have hwf : s.waitingForOperand = false := Bool.eq_false_iff.mpr (fun he => hw he)
    have htd2 : TypedDisplay s.display = true := htd hwf
    by_cases hc : s.display.data.contains '.' = false
    · rw [if_pos hc]
      refine ⟨hop, ?_, ?_, ?_, hprev⟩
      · show dotCount (s.display ++ ".") ≤ 1
        rw [dotCount_append, contains_false_dotCount s.display hc]
        decide
      · exact startsNumeric_append s.display "." hsn
      · intro _
        exact TypedDisplay_append_dot s.display hc htd2
    · rw [if_neg hc]
      exact ⟨hop, hdot, hsn, htd, hprev⟩

theorem commitResult_inv (nop : String) (result : JsNum) (hg : GoodFinite result) :
    StateInv (commitResult nop result).1 := by
  rw [commitResult]
  by_cases hf : result.isFinite = true
  · rw [hf]
    rw [if_neg (by decide : ¬((!true) = true))]
    obtain ⟨v, hv⟩ := isFinite_exists result hf
    obtain ⟨w, hw⟩ := fmt12_finite v (hg v hv)
    have hfw : fmt12 result = JsNum.finite w := by rw [hv]; exact hw
    refine ⟨?_, ?_, ?_, ?_, ?_⟩
    · show (if nop = "=" then (none : Option String) else some nop).isSome =
        (if nop = "=" then (none : Option JsNum) else some (fmt12 result)).isSome
      by_cases he : nop = "="
      · rw [if_pos he, if_pos he]
        rfl
      · rw [if_neg he, if_neg he]
        rfl
    · show dotCount (jsToString (fmt12 result)) ≤ 1
      rw [hfw]
      exact (jsToString_finite_props w).1
    · show startsNumeric (jsToString (fmt12 result)) = true
      rw [hfw]
      exact (jsToString_finite_props w).2
    · intro habs
      cases habs
    · intro pv hpv
      show pv ≠ JsNum.nan
      have : (if nop = "=" then (none : Option JsNum) else some (fmt12 result)) = some pv := hpv
      by_cases he : nop = "="
      · rw [if_pos he] at this
        cases this
      · rw [if_neg he] at this
        have hpe : fmt12 result = pv := Option.some.inj this
        rw [← hpe, hfw]
        intro hn
        cases hn
  · rw [Bool.eq_false_iff.mpr (fun he => hf he)]
    rw [if_pos (by decide : (!false) = true)]
    exact inv_initial

theorem inv_performOperation (nop : String) (s : CalculatorState) (h : StateInv s) :
    StateInv (performOperation nop s).1 := by
  obtain ⟨hop, hdot, hsn, htd, hprev⟩ := h
  rw [performOperation]
  rcases hp : s.previousValue with _ | pv
  · refine ⟨rfl, hdot, hsn, ?_, ?_⟩
    · intro habs
      cases habs
    · intro pv2 hpv2
      have : some (parseFloat s.display) = some pv2 := hpv2
      rw [← Option.some.inj this]
      exact parseFloat_ne_nan s.display hsn
  · rcases ho : s.operation with _ | op
    · exact ⟨hop, hdot, hsn, htd, hprev⟩
    · show StateInv
        (if op = "+" then commitResult nop (JsNum.add (jsOr0 pv) (parseFloat s.display))
         else if op = "-" then commitResult nop (JsNum.sub (jsOr0 pv) (parseFloat s.display))
         else if op = "×" then commitResult nop (JsNum.mul (jsOr0 pv) (parseFloat s.display))
         else if op = "÷" then
           (if (parseFloat s.display).isZero = true then (s, some divideByZeroToast)
            else commitResult nop (JsNum.div (jsOr0 pv) (parseFloat s.display)))
         else (s, none)).1
      by_cases h1 : op = "+"
      · rw [if_pos h1]
        exact commitResult_inv nop _ (add_good _ _)
      rw [if_neg h1]
      by_cases h2 : op = "-"
      · rw [if_pos h2]
        exact commitResult_inv nop _ (sub_good _ _)
      rw [if_neg h2]
      by_cases h3 : op = "×"
      · rw [if_pos h3]
        exact commitResult_inv nop _ (mul_good _ _)
      rw [if_neg h3]
      by_cases h4 : op = "÷"
      · rw [if_pos h4]
        by_cases hz : (parseFloat s.display).isZero = true
        · rw [if_pos hz]
          exact ⟨hop, hdot, hsn, htd, hprev⟩
        · rw [if_neg hz]
          exact commitResult_inv nop _ (div_good _ _)
      · rw [if_neg h4]
        exact ⟨hop, hdot, hsn, htd, hprev⟩

theorem inv_step (e : CalcEvent) (s : CalculatorState) (h : StateInv s) :
    StateInv (step e s).1 := by
  cases e with
  | digit d => exact inv_inputNumber d s h
  | decimalPoint => exact inv_inputDecimal s h
  | clearKey => exact inv_initial
  | operationKey op => exact inv_performOperation op s h

theorem inv_foldl (evs : List CalcEvent) :
    ∀ s, StateInv s → StateInv (evs.foldl (fun s e => (step e s).1) s) := by
  induction evs with
  | nil => exact fun s h => h
  | cons e evs2 ih => exact fun s h => ih _ (inv_step e s h)

theorem inv_run (evs : List CalcEvent) : StateInv (run evs) :=
  inv_foldl evs initialState inv_initial

/-- C1: with an operation pending, `performOperation` applies the stored
operation (not the newly pressed one) to the previous value and the parsed
display, shows the formatted result, arms `waitingForOperand`, and clears
the pending pair on `=` or re-arms it with the result and the new operator
otherwise; consequently `3 + 4 + 5 =` ends with display `"12"`. -/
theorem c1_pending_commit (s : CalculatorState) (nop : String) (pv : JsNum) (op : String)
    (hp : s.previousValue = some pv) (ho : s.operation = some op)
    (result : JsNum) (hr : applyOp op (jsOr0 pv) (parseFloat s.display) = some result)
    (hf : result.isFinite = true) :
    performOperation nop s =
      ({ display := jsToString (fmt12 result),
         previousValue := if nop = "=" then none else some (fmt12 result),
         operation := if nop = "=" then none else some nop,
         waitingForOperand := true }, none) ∧
      (run [CalcEvent.digit 3, CalcEvent.operationKey "+", CalcEvent.digit 4,
        CalcEvent.operationKey "+", CalcEvent.digit 5, CalcEvent.operationKey "="]).display
        = "12" := by
  constructor
  · rw [performOperation, hp, ho]
    show (if op = "+" then commitResult nop (JsNum.add (jsOr0 pv) (parseFloat s.display))
       else if op = "-" then commitResult nop (JsNum.sub (jsOr0 pv) (parseFloat s.display))
       else if op = "×" then commitResult nop (JsNum.mul (jsOr0 pv) (parseFloat s.display))
       else if op = "÷" then
         (if (parseFloat s.display).isZero = true then (s, some divideByZeroToast)
          else commitResult nop (JsNum.div (jsOr0 pv) (parseFloat s.display)))
       else (s, none)) = _
    rw [applyOp] at hr
    by_cases h1 : op = "+"
    · rw [if_pos h1] at hr ⊢
      cases hr
      rw [commitResult, hf]
      rw [if_neg (by decide : ¬((!true) = true))]
    · rw [if_neg h1] at hr ⊢
      by_cases h2 : op = "-"
      · rw [if_pos h2] at hr ⊢
        cases hr
        rw [commitResult, hf]
        rw [if_neg (by decide : ¬((!true) = true))]
      · rw [if_neg h2] at hr ⊢
        by_cases h3 : op = "×"
        · rw [if_pos h3] at hr ⊢
          cases hr
          rw [commitResult, hf]
          rw [if_neg (by decide : ¬((!true) = true))]
        · rw [if_neg h3] at hr ⊢
          by_cases h4 : op = "÷"
          · rw [if_pos h4] at hr ⊢
            by_cases hz : (parseFloat s.display).isZero = true
            · rw [if_pos hz] at hr
              cases hr
            · rw [if_neg hz] at hr ⊢
              cases hr
              rw [commitResult, hf]
              rw [if_neg (by decide : ¬((!true) = true))]
          · rw [if_neg h4] at hr
            cases hr
  · decide

/-- Witness for C1: committing `3 + 4` with `=` pressed. -/
theorem c1_pending_commit_witness :
    performOperation "="
      { display := "4",
        previousValue := some (JsNum.finite ⟨3, 1⟩),
        operation := some "+",
        waitingForOperand := false } =
      ({ display := jsToString (fmt12 (JsNum.add (jsOr0 (JsNum.finite ⟨3, 1⟩))
           (parseFloat "4"))),
         previousValue := if "=" = "=" then none
           else some (fmt12 (JsNum.add (jsOr0 (JsNum.finite ⟨3, 1⟩)) (parseFloat "4"))),
         operation := if "=" = "=" then none else some "=",
         waitingForOperand := true }, none) ∧
      (run [CalcEvent.digit 3, CalcEvent.operationKey "+", CalcEvent.digit 4,
        CalcEvent.operationKey "+", CalcEvent.digit 5, CalcEvent.operationKey "="]).display
        = "12" :=
  c1_pending_commit _ "=" _ "+" rfl rfl _ rfl (by decide)

/-- C2: with a divide pending and the parsed display equal to 0 (whatever
the previous value, zero included), `performOperation` emits exactly the
"Cannot divide by zero" toast and leaves the state completely unchanged. -/
theorem c2_divide_by_zero (s : CalculatorState) (nop : String) (pv : JsNum)
    (hp : s.previousValue = some pv) (ho : s.operation = some "÷")
    (hz : (parseFloat s.display).isZero = true) :
    performOperation nop s = (s, some divideByZeroToast) ∧
      divideByZeroToast.description = "Cannot divide by zero" := by
  refine ⟨?_, rfl⟩
  rw [performOperation, hp, ho]
  show (if "÷" = "+" then commitResult nop (JsNum.add (jsOr0 pv) (parseFloat s.display))
     else if "÷" = "-" then commitResult nop (JsNum.sub (jsOr0 pv) (parseFloat s.display))
     else if "÷" = "×" then commitResult nop (JsNum.mul (jsOr0 pv) (parseFloat s.display))
     else if "÷" = "÷" then
       (if (parseFloat s.display).isZero = true then (s, some divideByZeroToast)
        else commitResult nop (JsNum.div (jsOr0 pv) (parseFloat s.display)))
     else (s, none)) = (s, some divideByZeroToast)
  rw [if_neg (by decide : ¬("÷" = "+")), if_neg (by decide : ¬("÷" = "-")),
    if_neg (by decide : ¬("÷" = "×")), if_pos (rfl : "÷" = "÷"), if_pos hz]

/-- Witness for C2: `5 ÷ 0` with `=` pressed, on the state reached after
typing the 0. -/
theorem c2_divide_by_zero_witness :
    performOperation "="
      { display := "0",
        previousValue := some (JsNum.finite ⟨5, 1⟩),
        operation := some "÷",
        waitingForOperand := false } =
      ({ display := "0",
         previousValue := some (JsNum.finite ⟨5, 1⟩),
         operation := some "÷",
         waitingForOperand := false }, some divideByZeroToast) ∧
      divideByZeroToast.description = "Cannot divide by zero" :=
  c2_divide_by_zero _ "=" _ rfl rfl (by decide)

/-- C3: with an operation pending, if the stored operation's result on the
previous value and the parsed display is not finite, `performOperation`
emits the "Invalid calculation" toast and resets the state to the initial
value; the non-finite result is neither displayed nor stored. -/
theorem c3_nonfinite_reset (s : CalculatorState) (nop : String) (pv : JsNum) (op : String)
    (hp : s.previousValue = some pv) (ho : s.operation = some op)
    (result : JsNum) (hr : applyOp op (jsOr0 pv) (parseFloat s.display) = some result)
    (hf : result.isFinite = false) :
    performOperation nop s = (initialState, some invalidCalculationToast) ∧
      invalidCalculationToast.description = "Invalid calculation" ∧
      initialState =
        { display := "0",
          previousValue := none,
          operation := none,
          waitingForOperand := false } := by
  refine ⟨?_, rfl, rfl⟩
  rw [performOperation, hp, ho]
  show (if op = "+" then commitResult nop (JsNum.add (jsOr0 pv) (parseFloat s.display))
     else if op = "-" then commitResult nop (JsNum.sub (jsOr0 pv) (parseFloat s.display))
     else if op = "×" then commitResult nop (JsNum.mul (jsOr0 pv) (parseFloat s.display))
     else if op = "÷" then
       (if (parseFloat s.display).isZero = true then (s, some divideByZeroToast)
        else commitResult nop (JsNum.div (jsOr0 pv) (parseFloat s.display)))
     else (s, none)) = (initialState, some invalidCalculationToast)
  rw [applyOp] at hr
  by_cases h1 : op = "+"
  · rw [if_pos h1] at hr ⊢
    cases hr
    rw [commitResult, hf, if_pos (by decide : (!false) = true)]
  · rw [if_neg h1] at hr ⊢
    by_cases h2 : op = "-"
    · rw [if_pos h2] at hr ⊢
      cases hr
      rw [commitResult, hf, if_pos (by decide : (!false) = true)]
    · rw [if_neg h2] at hr ⊢
      by_cases h3 : op = "×"
      · rw [if_pos h3] at hr ⊢
        cases hr
        rw [commitResult, hf, if_pos (by decide : (!false) = true)]
      · rw [if_neg h3] at hr ⊢
        by_cases h4 : op = "÷"
        · rw [if_pos h4] at hr ⊢
          by_cases hz : (parseFloat s.display).isZero = true
          · rw [if_pos hz] at hr
            cases hr
          · rw [if_neg hz] at hr ⊢
            cases hr
            rw [commitResult, hf, if_pos (by decide : (!false) = true)]
        · rw [if_neg h4] at hr
          cases hr

/-- Witness for C3: adding 1 to a stored infinity overflows and resets. -/
theorem c3_nonfinite_reset_witness :
    performOperation "="
      { display := "1",
        previousValue := some (JsNum.inf false),
        operation := some "+",
        waitingForOperand := false } =
      (initialState, some invalidCalculationToast) ∧
      invalidCalculationToast.description = "Invalid calculation" ∧
      initialState =
        { display := "0",
          previousValue := none,
          operation := none,
          waitingForOperand := false } :=
  c3_nonfinite_reset _ "=" _ "+" rfl rfl _ rfl (by decide)

/-- C4: with nothing pending, `performOperation` arms the chain: it stores
the parsed display as the previous value and the pressed key (equals
included) as the operation, sets `waitingForOperand`, leaves the display
untouched and emits no toast. -/
theorem c4_arming (s : CalculatorState) (op : String) (hp : s.previousValue = none) :
    performOperation op s =
      ({ display := s.display,
         previousValue := some (parseFloat s.display),
         operation := some op,
         waitingForOperand := true }, none) := by
  rw [performOperation, hp]

/-- Witness for C4: pressing `+` on the initial state. -/
theorem c4_arming_witness :
    performOperation "+" initialState =
      ({ display := initialState.display,
         previousValue := some (parseFloat initialState.display),
         operation := some "+",
         waitingForOperand := true }, none) :=
  c4_arming initialState "+" rfl

/-- C5: the clear key resets any state to the initial value — display "0",
no previous value, no operation, not waiting — and emits no toast. -/
theorem c5_clear (s : CalculatorState) :
    step CalcEvent.clearKey s = (initialState, none) ∧
      initialState =
        { display := "0",
          previousValue := none,
          operation := none,
          waitingForOperand := false } :=
  ⟨rfl, rfl⟩

/-- C6: every reachable state satisfies the three data-model invariants:
the operation is present exactly when the previous value is, the display
holds at most one decimal point, and the display is a nonempty string that
parses as a (finite, exact-valued) decimal literal. -/
theorem c6_reachable_invariants (evs : List CalcEvent) :
    ((run evs).operation.isSome = (run evs).previousValue.isSome) ∧
      dotCount (run evs).display ≤ 1 ∧
      (run evs).display ≠ "" ∧
      (decValue? (run evs).display).isSome = true := by
  obtain ⟨hop, hdot, hsn, htd, hprev⟩ := inv_run evs
  refine ⟨hop, hdot, ?_, startsNumeric_decValue _ hsn⟩
  intro he
  rw [he] at hsn
  exact absurd hsn (by decide)

/-- C7: a committed result is rounded to 12 significant decimal digits
before it reaches the display and the stored previous value, so `0.1 + 0.2
=` shows exactly "0.3", while the raw binary64 sum would have shown
"0.30000000000000004". -/
theorem c7_round12 (nop : String) (result : JsNum) (hf : result.isFinite = true) :
    (commitResult nop result).1.display = jsToString (fmt12 result) ∧
      (commitResult nop result).1.previousValue =
        (if nop = "=" then none else some (fmt12 result)) ∧
      (run [CalcEvent.digit 0, CalcEvent.decimalPoint, CalcEvent.digit 1,
        CalcEvent.operationKey "+", CalcEvent.digit 0, CalcEvent.decimalPoint,
        CalcEvent.digit 2, CalcEvent.operationKey "="]).display = "0.3" ∧
      jsToString (JsNum.add (parseFloat "0.1") (parseFloat "0.2"))
        = "0.30000000000000004" := by
  rw [commitResult, hf, if_neg (by decide : ¬((!true) = true))]
  exact ⟨rfl, rfl, by decide, by decide⟩

/-- Witness for C7: committing the sum `0.1 + 0.2`. -/
theorem c7_round12_witness :
    (commitResult "=" (JsNum.add (parseFloat "0.1") (parseFloat "0.2"))).1.display =
      jsToString (fmt12 (JsNum.add (parseFloat "0.1") (parseFloat "0.2"))) ∧
      (commitResult "=" (JsNum.add (parseFloat "0.1") (parseFloat "0.2"))).1.previousValue =
        (if "=" = "=" then none
         else some (fmt12 (JsNum.add (parseFloat "0.1") (parseFloat "0.2")))) ∧
      (run [CalcEvent.digit 0, CalcEvent.decimalPoint, CalcEvent.digit 1,
        CalcEvent.operationKey "+", CalcEvent.digit 0, CalcEvent.decimalPoint,
        CalcEvent.digit 2, CalcEvent.operationKey "="]).display = "0.3" ∧
      jsToString (JsNum.add (parseFloat "0.1") (parseFloat "0.2"))
        = "0.30000000000000004" :=
  c7_round12 "=" _ (by decide)

/-- C8 (amended): after `5 ÷ 0 =` the display is "0" — the typed zero, not
"5" — with the divide still pending and exactly one divide-by-zero toast;
pressing `÷ 2 =` afterwards fires a second divide-by-zero toast (the `÷`
commits against the still-zero display) and then yields "2.5". -/
theorem c8_divide_zero_behavior :
    runWithToasts [CalcEvent.digit 5, CalcEvent.operationKey "÷", CalcEvent.digit 0,
        CalcEvent.operationKey "="] =
      ({ display := "0",
         previousValue := some (parseFloat "5"),
         operation := some "÷",
         waitingForOperand := false }, [divideByZeroToast]) ∧
      runWithToasts [CalcEvent.digit 5, CalcEvent.operationKey "÷", CalcEvent.digit 0,
        CalcEvent.operationKey "=", CalcEvent.operationKey "÷", CalcEvent.digit 2,
        CalcEvent.operationKey "="] =
      ({ display := "2.5",
         previousValue := none,
         operation := none,
         waitingForOperand := true }, [divideByZeroToast, divideByZeroToast]) :=
  ⟨by decide, by decide⟩

/-- Counterexample to C8 as stated: after `5 ÷ 0 =` the display reads "0",
not "5". -/
theorem c8_display_counterexample :
    (run [CalcEvent.digit 5, CalcEvent.operationKey "÷", CalcEvent.digit 0,
      CalcEvent.operationKey "="]).display = "0" ∧ ("0" : String) ≠ "5" :=
  ⟨by decide, by decide⟩

/-- C9: pressing equals with nothing pending arms the chain with
`operation = "="` and the parsed display stored, emitting nothing; and any
state armed with `"="` is stuck — every later `performOperation`, whatever
key is pressed, reaches the default switch arm and returns the state
unchanged with no toast. -/
theorem c9_equals_armed_stuck (s : CalculatorState) (hp : s.previousValue = none)
    (nop : String) :
    (performOperation "=" s).1.operation = some "=" ∧
      (performOperation "=" s).1.previousValue = some (parseFloat s.display) ∧
      (performOperation "=" s).2 = none ∧
      (∀ t : CalculatorState, t.operation = some "=" →
        ∀ pv, t.previousValue = some pv → performOperation nop t = (t, none)) := by
  refine ⟨?_, ?_, ?_, ?_⟩
  · rw [performOperation, hp]
  · rw [performOperation, hp]
  · rw [performOperation, hp]
  · intro t ht pv hp2
    rw [performOperation, hp2, ht]
    show (if "=" = "+" then commitResult nop (JsNum.add (jsOr0 pv) (parseFloat t.display))
       else if "=" = "-" then commitResult nop (JsNum.sub (jsOr0 pv) (parseFloat t.display))
       else if "=" = "×" then commitResult nop (JsNum.mul (jsOr0 pv) (parseFloat t.display))
       else if "=" = "÷" then
         (if (parseFloat t.display).isZero = true then (t, some divideByZeroToast)
          else commitResult nop (JsNum.div (jsOr0 pv) (parseFloat t.display)))
       else (t, none)) = (t, none)
    rw [if_neg (by decide : ¬("=" = "+")), if_neg (by decide : ¬("=" = "-")),
      if_neg (by decide : ¬("=" = "×")), if_neg (by decide : ¬("=" = "÷"))]

/-- Witness for C9: equals on the initial state, then any key on a
concrete state armed with equals. -/
theorem c9_equals_armed_stuck_witness :
    (performOperation "=" initialState).1.operation = some "=" ∧
      (performOperation "=" initialState).1.previousValue =
        some (parseFloat initialState.display) ∧
      performOperation "+"
        { display := "5",
          previousValue := some (JsNum.finite ⟨5, 1⟩),
          operation := some "=",
          waitingForOperand := false } =
      ({ display := "5",
         previousValue := some (JsNum.finite ⟨5, 1⟩),
         operation := some "=",
         waitingForOperand := false }, none) :=
  ⟨(c9_equals_armed_stuck initialState rfl "+").1,
   (c9_equals_armed_stuck initialState rfl "+").2.1,
   (c9_equals_armed_stuck initialState rfl "+").2.2.2 _ rfl (JsNum.finite ⟨5, 1⟩) rfl⟩

/-- C10 (amended): a stored previous value is never NaN; it can, however,
be an infinity, so the original finiteness claim fails. -/
theorem c10_prev_never_nan (evs : List CalcEvent) (pv : JsNum)
    (hp : (run evs).previousValue = some pv) : pv ≠ JsNum.nan :=
  (inv_run evs).2.2.2.2 pv hp

/-- Witness for C10 (amended): pressing `+` first stores the parse of "0". -/
theorem c10_prev_never_nan_witness :
    (run [CalcEvent.operationKey "+"]).previousValue = some (JsNum.finite Q.zero) ∧
      JsNum.finite Q.zero ≠ JsNum.nan :=
  ⟨by decide,
   c10_prev_never_nan [CalcEvent.operationKey "+"] (JsNum.finite Q.zero) (by decide)⟩

/-- Counterexample to C10 as stated: typing 310 nines and pressing `+`
stores positive infinity as the previous value. -/
theorem c10_infinity_counterexample :
    (run (List.replicate 310 (CalcEvent.digit 9) ++
      [CalcEvent.operationKey "+"])).previousValue = some (JsNum.inf false) := by
  decide
